import Mathlib

set_option linter.unusedVariables false

namespace DeepResearch

/-! Shallow embedding of `src/api/research/deep_research.py` together with the
orchestration-relevant behavior of `src/api/research/providers.py`.

External effects are modelled as oracles in `Env`, indexed by the number of
calls made so far to that capability; each capability response also carries the
wall-clock seconds the call consumed, which lets us model the timeout check
(`time.time() - start_time`) with a simulated clock threaded through the state.
The progress callback (`on_progress`) is modelled by `Env.sink`: at its `i`-th
invocation it either succeeds (`none`) or raises an exception (`some msg`),
mirroring an arbitrary awaited callback.  The cancellation probe
(`check_cancelled`) is a pure boolean of its invocation index.

A Python exception escaping a function is modelled as `Except.error`; the state
is returned alongside so that traces survive an abort.  `St.events` is the
observable trace: progress messages actually delivered to the sink, the moment
each query was dispatched (`total_queries += 1`), each query-generation call,
each batch of learnings appended to the round buffer, and the invocation of the
report capability. -/

def MAX_RESEARCH_TIME : Nat := 300

def MAX_QUERIES_PER_ITERATION : Int := 5

def MAX_TOTAL_QUERIES : Nat := 20

/-- A candidate query as produced by `generate_research_queries`:
`query_info.get("query", "")` / `query_info.get("research_goal", "")`. -/
structure CandidateQuery where
  query : String
  research_goal : String
deriving DecidableEq

inductive Event where
  | progress (msg : String)
  | dispatch (time : Nat) (total : Nat)
  | genCall (time : Nat) (numCandidates : Nat)
  | learned (extCall : Nat) (ls : List String)
  | reportCall
deriving DecidableEq

/-- The environment: oracles for every external collaborator of the
orchestrator.  `retrieve` returns the RAG result list, each element carrying
its `documents` (list of document texts, mirroring `doc.text`).  `extractLLM`
is the raw model response behind `process_research_results` (learnings,
follow-up questions) before the truncation performed by the source.
`reportChunks`/`reportErr` model the streamed report: the chunks the provider
yields, then optionally an exception raised inside the stream. -/
structure Env where
  genQueries : Nat → Nat × Except String (List CandidateQuery)
  retrieve : Nat → Nat × Except String (List (List String))
  extractLLM : Nat → Nat × Except String (List String × List String)
  reportChunks : List String
  reportErr : Option String
  probe : Option (Nat → Bool)
  sink : Option (Nat → Option String)

structure St where
  now : Nat
  totalQueries : Nat
  genCalls : Nat
  retCalls : Nat
  extCalls : Nat
  probeCalls : Nat
  sinkCalls : Nat
  events : List Event
deriving DecidableEq

def initSt : St := ⟨0, 0, 0, 0, 0, 0, 0, []⟩

/-- Python list slicing `xs[:n]`, including the negative-index case. -/
def pyTrunc (n : Int) (xs : List α) : List α :=
  if 0 ≤ n then xs.take n.toNat
  else xs.take (xs.length - (-n).toNat)

/-- `if on_progress: await on_progress(msg)`.  When the callback raises, the
exception propagates to the caller of `callSink` (guarding, where the source
has any, is done at the call sites). -/
def callSink (env : Env) (msg : String) (s : St) : St × Except String Unit :=
  match env.sink with
  | none => (s, .ok ())
  | some f =>
    match f s.sinkCalls with
    | none =>
      ({ s with sinkCalls := s.sinkCalls + 1,
                events := s.events ++ [.progress msg] }, .ok ())
    | some e => ({ s with sinkCalls := s.sinkCalls + 1 }, .error e)

/-- `check_cancelled and check_cancelled()`. -/
def probeCheck (env : Env) (s : St) : Bool × St :=
  match env.probe with
  | none => (false, s)
  | some p => (p s.probeCalls, { s with probeCalls := s.probeCalls + 1 })

/-- The candidate list `generate_research_queries` hands back: the raw model
response truncated by `result.get("queries", [])[:num_queries]`; any exception
inside the call (and the unsupported-provider path) yields `[]`. -/
def genResultOf (env : Env) (num_queries : Int) (i : Nat) : List CandidateQuery :=
  match (env.genQueries i).2 with
  | .error _ => []
  | .ok raw => pyTrunc num_queries raw

/-- State change of the query-generation call: call counter, clock, and the
`genCall` trace record (taken at the clock value the round started with). -/
def genBump (env : Env) (num_queries : Int) (s : St) : St :=
  { s with genCalls := s.genCalls + 1,
           now := s.now + (env.genQueries s.genCalls).1,
           events := s.events ++
             [.genCall s.now (genResultOf env num_queries s.genCalls).length] }

/-- `providers.generate_research_queries`: never raises (its body is wrapped in
`try/except` returning `[]`). -/
def generate_research_queries (env : Env) (num_queries : Int) (s : St) :
    List CandidateQuery × St :=
  (genResultOf env num_queries s.genCalls, genBump env num_queries s)

/-- The value `process_research_results` extracts from the model response at
extraction call `i`: the `[:num_learnings]` / `[:num_follow_ups]` truncations
on success, empty lists when the call raised (caught by its `try/except`). -/
def extractResultOf (env : Env) (num_learnings num_follow_ups : Int) (i : Nat) :
    List String × List String :=
  match (env.extractLLM i).2 with
  | .error _ => ([], [])
  | .ok (ls, fs) => (pyTrunc num_learnings ls, pyTrunc num_follow_ups fs)

/-- `providers.process_research_results`: empty-input short-circuits, the
top-10 document cut, the `doc.text` truthiness filter (the `contents` list is
otherwise only prompt material), the model call, and the truncations; any
exception inside is caught and yields empty lists. -/
def process_research_results (env : Env) (retrieved_docs : List String)
    (num_learnings num_follow_ups : Int) (s : St) :
    (List String × List String) × St :=
  if retrieved_docs = [] then (([], []), s)
  else if (retrieved_docs.take 10).filter (fun d => d ≠ "") = [] then (([], []), s)
  else
    (extractResultOf env num_learnings num_follow_ups s.extCalls,
     { s with extCalls := s.extCalls + 1,
              now := s.now + (env.extractLLM s.extCalls).1 })

def cancelNarr : String := "<think>Research cancelled</think>"

def timeoutNarr : String :=
  "<think>Research timeout - generating report with current findings</think>"

def limitNarr : String := "<think>Query limit reached - generating report</think>"

def noQueriesNarr : String :=
  "<think>No new queries generated, ending research early</think>"

def iterStartNarr (it : Nat) (depth : Int) : String :=
  "<think>Research iteration " ++ toString (it + 1) ++ "/" ++ toString depth ++
    ": Generating search queries...</think>"

def searchNarr (q : String) : String :=
  "<think>Searching codebase: " ++ q ++ "</think>"

def foundNarr (n : Nat) : String :=
  "<think>Found " ++ toString n ++ " relevant code files, analyzing...</think>"

def extractedNarr (k : Nat) (q : String) : String :=
  "<think>Extracted " ++ toString k ++ " insights from " ++ q ++ "</think>"

def exceptNarr (q : String) : String :=
  "<think>Error searching for: " ++ q ++ "</think>"

def iterDoneNarr (it : Nat) (k : Nat) : String :=
  "<think>Iteration " ++ toString (it + 1) ++ " completed: " ++ toString k ++
    " new insights discovered</think>"

def iterNoneNarr (it : Nat) : String :=
  "<think>No new insights in iteration " ++ toString (it + 1) ++ "</think>"

def startNarr (depth breadth : Int) : String :=
  "<think>Starting deep research with depth=" ++ toString depth ++
    ", breadth=" ++ toString breadth ++ "</think>"

def reportStartNarr : String :=
  "<think>Generating final comprehensive report...</think>"

/-- Outcome of processing one candidate query. -/
inductive QStep where
  | abort (e : String)
  | next (itL : List String)

/-- The `except` handler of the per-query `try` (lines 181–185):
`on_progress` is called with the error narration — an exception raised by that
very call is not guarded and propagates — then the loop continues with the
round buffer `itL` as it stands. -/
def runHandler (env : Env) (q : String) (itL : List String) (s : St) :
    St × QStep :=
  match callSink env (exceptNarr q) s with
  | (s, .error e2) => (s, .abort e2)
  | (s, .ok _) => (s, .next itL)

/-- The `else` branch for `not (retrieved_results and retrieved_results[0].documents)`:
the "no relevant code" narration is emitted inside the `try`, so a sink
exception there lands in the handler. -/
def noDocsPath (env : Env) (q : String) (itL : List String) (s : St) :
    St × QStep :=
  match callSink env ("<think>No relevant code found for: " ++ q ++ "</think>") s with
  | (s, .error _) => runHandler env q itL s
  | (s, .ok _) => (s, .next itL)

/-- State change of the retrieval call itself: call counter and clock. -/
def retrieveBump (env : Env) (s : St) : St :=
  { s with retCalls := s.retCalls + 1, now := s.now + (env.retrieve s.retCalls).1 }

/-- The learnings `process_research_results` hands back on this call. -/
def plearn (env : Env) (breadth : Int) (docs : List String) (s2 : St) :
    List String :=
  (process_research_results env docs 3 breadth s2).1.1

/-- The state after the `process_research_results` call. -/
def pstate (env : Env) (breadth : Int) (docs : List String) (s2 : St) : St :=
  (process_research_results env docs 3 breadth s2).2

/-- The state after appending the extracted batch to the round buffer
(`iteration_learnings.extend(query_learnings)`), recorded as a `learned`
event at the extraction-call index. -/
def learnedPush (env : Env) (breadth : Int) (docs : List String) (s2 : St) :
    St :=
  { pstate env breadth docs s2 with
    events := (pstate env breadth docs s2).events ++
      [.learned s2.extCalls (plearn env breadth docs s2)] }

/-- Lines 158–175: extraction of learnings from the retrieved documents and
their collection into the round buffer.
`iteration_learnings.extend(query_learnings)` happens before the progress
call, so the learnings survive a sink exception raised by that call (which the
per-query `except` then routes through the error narration). -/
def extractPhase (env : Env) (breadth : Int) (qi : CandidateQuery)
    (docs : List String) (itL : List String) (s2 : St) : St × QStep :=
  if plearn env breadth docs s2 = [] then (pstate env breadth docs s2, .next itL)
  else
    match callSink env (extractedNarr (plearn env breadth docs s2).length qi.query)
        (learnedPush env breadth docs s2) with
    | (s5, .error _) => runHandler env qi.query (itL ++ plearn env breadth docs s2) s5
    | (s5, .ok _) => (s5, .next (itL ++ plearn env breadth docs s2))

/-- Lines 151–175: the documents-found narration (inside the `try`) followed
by the extraction phase. -/
def docsPhase (env : Env) (breadth : Int) (qi : CandidateQuery)
    (docs : List String) (itL : List String) (s1 : St) : St × QStep :=
  match callSink env (foundNarr docs.length) s1 with
  | (s2, .error _) => runHandler env qi.query itL s2
  | (s2, .ok _) => extractPhase env breadth qi docs itL s2

/-- Body of the per-query `try` block (lines 148–185): retrieval, the
`retrieved_results and retrieved_results[0].documents` check, then the
documents/extraction phases.  All exceptions raised inside — including ones
raised by `on_progress` calls that sit inside the `try` — fall into
`runHandler`. -/
def handleQuery (env : Env) (breadth : Int) (qi : CandidateQuery)
    (itL : List String) (s : St) : St × QStep :=
  match (env.retrieve s.retCalls).2 with
  | .error _ => runHandler env qi.query itL (retrieveBump env s)
  | .ok [] => noDocsPath env qi.query itL (retrieveBump env s)
  | .ok (docs :: _) =>
    if docs = [] then noDocsPath env qi.query itL (retrieveBump env s)
    else docsPhase env breadth qi docs itL (retrieveBump env s)

/-- State change of `total_queries += 1`, with the dispatch moment (clock and
new counter value) recorded in the trace. -/
def dispatchBump (s : St) : St :=
  { s with totalQueries := s.totalQueries + 1,
           events := s.events ++ [.dispatch s.now (s.totalQueries + 1)] }

/-- The per-round query loop (lines 130–185).  Cancellation is re-checked
before each candidate (a `break` keeps the buffer); `total_queries` is
incremented before the empty-search-string `continue`; the "Searching codebase"
narration sits outside the `try`, so a sink exception there propagates. -/
def queryLoop (env : Env) (breadth : Int) :
    List CandidateQuery → List String → St → St × Except String (List String)
  | [], itL, s => (s, .ok itL)
  | qi :: rest, itL, s =>
    match probeCheck env s with
    | (true, s1) => (s1, .ok itL)
    | (false, s1) =>
      if qi.query = "" then queryLoop env breadth rest itL (dispatchBump s1)
      else
        match callSink env (searchNarr qi.query) (dispatchBump s1) with
        | (s3, .error e) => (s3, .error e)
        | (s3, .ok _) =>
          match handleQuery env breadth qi itL s3 with
          | (s4, .abort e) => (s4, .error e)
          | (s4, .next itL2) => queryLoop env breadth rest itL2 s4

/-- The round loop (lines 84–197) over `range(depth)`: the cancellation,
timeout and total-queries checks at the top of each round (each with its
narration), query generation, the empty-candidates early exit, the query
fan-out, and the append of the round buffer to `all_learnings`. -/
def roundLoop (env : Env) (breadth depth : Int) :
    List Nat → List String → St → St × Except String (List String)
  | [], all, s => (s, .ok all)
  | it :: rest, all, s =>
    match probeCheck env s with
    | (true, s1) =>
      (match callSink env cancelNarr s1 with
       | (s2, .error e) => (s2, .error e)
       | (s2, .ok _) => (s2, .ok all))
    | (false, s1) =>
      if MAX_RESEARCH_TIME < s1.now then
        match callSink env timeoutNarr s1 with
        | (s2, .error e) => (s2, .error e)
        | (s2, .ok _) => (s2, .ok all)
      else if MAX_TOTAL_QUERIES ≤ s1.totalQueries then
        match callSink env limitNarr s1 with
        | (s2, .error e) => (s2, .error e)
        | (s2, .ok _) => (s2, .ok all)
      else
        match callSink env (iterStartNarr it depth) s1 with
        | (s2, .error e) => (s2, .error e)
        | (s2, .ok _) =>
          if genResultOf env breadth s2.genCalls = [] then
            match callSink env noQueriesNarr (genBump env breadth s2) with
            | (s4, .error e) => (s4, .error e)
            | (s4, .ok _) => (s4, .ok all)
          else
            match queryLoop env breadth (genResultOf env breadth s2.genCalls) []
                (genBump env breadth s2) with
            | (s4, .error e) => (s4, .error e)
            | (s4, .ok itL) =>
              if itL = [] then
                match callSink env (iterNoneNarr it) s4 with
                | (s5, .error e) => (s5, .error e)
                | (s5, .ok _) => roundLoop env breadth depth rest all s5
              else
                match callSink env (iterDoneNarr it itL.length) s4 with
                | (s5, .error e) => (s5, .error e)
                | (s5, .ok _) => roundLoop env breadth depth rest (all ++ itL) s5

def reportErrMsg (e : String) : String := "Error generating final report: " ++ e

/-- The chunk stream of `providers.write_final_report_streaming`: each chunk is
forwarded to `on_chunk` (the progress sink) and collected; a provider exception
after the streamed chunks — or an exception raised by `on_chunk` itself, which
the generator's `try` also catches — makes the generator emit
`"Error generating final report: ..."` through `on_chunk` (unguarded: a second
sink exception propagates) and yield it as the last chunk. -/
def streamChunks (env : Env) :
    List String → List String → St → St × Except String (List String)
  | [], acc, s =>
    (match env.reportErr with
     | none => (s, .ok acc)
     | some e =>
       match callSink env (reportErrMsg e) s with
       | (s, .error e2) => (s, .error e2)
       | (s, .ok _) => (s, .ok (acc ++ [reportErrMsg e])))
  | c :: rest, acc, s =>
    match callSink env c s with
    | (s, .ok _) => streamChunks env rest (acc ++ [c]) s
    | (s, .error e) =>
      match callSink env (reportErrMsg e) s with
      | (s, .error e2) => (s, .error e2)
      | (s, .ok _) => (s, .ok (acc ++ [reportErrMsg e]))

def write_final_report_streaming (env : Env) (s : St) :
    St × Except String (List String) :=
  streamChunks env env.reportChunks []
    { s with events := s.events ++ [.reportCall] }

structure ResearchResult where
  learnings : List String
  final_report : String
deriving DecidableEq

def fallbackPre : String :=
  "# Research Results\n\nUnable to find sufficient information in the codebase to answer: "

def fallbackPost : String :=
  "\n\nPlease try rephrasing your question or ensure the repository has been properly indexed."

def fallbackReport (q : String) : String := fallbackPre ++ q ++ fallbackPost

/-- `deep_research` (lines 37–242): parameter clamping, the start narration,
the round loop over `range(depth)`, and the report phase — streaming when any
learnings were gathered, the deterministic fallback otherwise. -/
def deep_research (env : Env) (query : String) (breadth depth : Int) :
    St × Except String ResearchResult :=
  match callSink env
      (startNarr (min depth 5) (min breadth MAX_QUERIES_PER_ITERATION)) initSt with
  | (s, .error e) => (s, .error e)
  | (s, .ok _) =>
    match roundLoop env (min breadth MAX_QUERIES_PER_ITERATION) (min depth 5)
        (List.range (min depth 5).toNat) [] s with
    | (s1, .error e) => (s1, .error e)
    | (s1, .ok all) =>
      match callSink env reportStartNarr s1 with
      | (s2, .error e) => (s2, .error e)
      | (s2, .ok _) =>
        if all = [] then
          match callSink env (fallbackReport query) s2 with
          | (s3, .error e) => (s3, .error e)
          | (s3, .ok _) => (s3, .ok ⟨[], fallbackReport query⟩)
        else
          match write_final_report_streaming env s2 with
          | (s3, .error e) => (s3, .error e)
          | (s3, .ok chunks) => (s3, .ok ⟨all, String.join chunks⟩)

/-- The sink throws on no invocation (in particular when no sink was supplied). -/
def sinkNeverThrows (env : Env) : Prop :=
  ∀ f, env.sink = some f → ∀ i, f i = none

/-- Events a successful sink delivery appends. -/
def sinkEvs (env : Env) (m : String) : List Event :=
  match env.sink with
  | none => []
  | some _ => [.progress m]

/-- State after a successful (non-throwing) sink delivery. -/
def sinkPush (env : Env) (m : String) (s : St) : St :=
  match env.sink with
  | none => s
  | some _ =>
    { s with sinkCalls := s.sinkCalls + 1, events := s.events ++ [.progress m] }

def probeFires (env : Env) (s : St) : Bool :=
  match env.probe with
  | none => false
  | some p => p s.probeCalls

def probeBump (env : Env) (s : St) : St :=
  match env.probe with
  | none => s
  | some _ => { s with probeCalls := s.probeCalls + 1 }

/-- Events the per-query machinery may produce (no round bookkeeping, no
report invocation). -/
def queryEvent : Event → Prop
  | .progress _ => True
  | .dispatch _ _ => True
  | .learned _ _ => True
  | _ => False

/-- Events the round loop may produce: query events, or a query-generation
record taken while the clock was within the ceiling and with at most
`breadth.toNat` candidates (for non-negative breadth). -/
def roundEventOk (b : Int) (e : Event) : Prop :=
  queryEvent e ∨
    ∃ t n, e = Event.genCall t n ∧ t ≤ MAX_RESEARCH_TIME ∧ (0 ≤ b → n ≤ b.toNat)

/-- A learnings batch recorded at extraction call `i` is exactly the raw model
response truncated to the 3 requested learnings, and non-empty. -/
def extractOkAt (env : Env) (i : Nat) (ls : List String) : Prop :=
  ∃ raw fus, (env.extractLLM i).2 = .ok (raw, fus) ∧ ls = raw.take 3 ∧ ls ≠ []

/-- The learnings batches recorded in the trace, in trace order. -/
def learnedBatches (evs : List Event) : List (List String) :=
  evs.filterMap fun e =>
    match e with
    | .learned _ ls => some ls
    | _ => none

/-- Number of query-generation calls recorded in the trace — the number of
rounds that actually ran. -/
def countGen (evs : List Event) : Nat :=
  (evs.filter fun e =>
    match e with
    | .genCall _ _ => true
    | _ => false).length

/-- Chunk the report generator appends after the provider chunks when the
provider raised. -/
def errList (env : Env) : List String :=
  match env.reportErr with
  | none => []
  | some e => [reportErrMsg e]

/-- Modelled on the spec's round-top terminal conditions, in the order the
code actually checks them once a round has started (the depth bound is the
`for` guard and precedes all of these): cancellation, then timeout, then the
global query ceiling; `none` means the round proceeds to query generation. -/
def specRoundStop (env : Env) (s : St) : Option String :=
  if probeFires env s then some cancelNarr
  else if MAX_RESEARCH_TIME < s.now then some timeoutNarr
  else if MAX_TOTAL_QUERIES ≤ s.totalQueries then some limitNarr
  else none

/-- A benign environment: one candidate per round, one document, one learning,
one report chunk, no probe, no sink. -/
def trivEnv : Env where
  genQueries := fun _ => (0, .ok [⟨"a", "g"⟩])
  retrieve := fun _ => (0, .ok [["doc"]])
  extractLLM := fun _ => (0, .ok (["learn"], []))
  reportChunks := ["rep"]
  reportErr := none
  probe := none
  sink := none

/-- Rounds generate 4, 4, 4, 4, then 5 candidate queries (breadth 5 allows up
to 5); every retrieval raises.  After four rounds `total_queries = 16 < 20`,
so round five runs and pushes the counter to 21. -/
def envC1 : Env where
  genQueries := fun i => (0, .ok (List.replicate (if i < 4 then 4 else 5) ⟨"q", ""⟩))
  retrieve := fun _ => (0, .error "ragdown")
  extractLLM := fun _ => (0, .error "x")
  reportChunks := []
  reportErr := none
  probe := none
  sink := none

/-- One round, two candidates; the first retrieval call consumes 301 seconds,
so the second candidate is dispatched with the clock already past the
300-second ceiling. -/
def envC5 : Env where
  genQueries := fun _ => (0, .ok [⟨"a", ""⟩, ⟨"b", ""⟩])
  retrieve := fun _ => (301, .ok [])
  extractLLM := fun _ => (0, .error "x")
  reportChunks := []
  reportErr := none
  probe := none
  sink := none

/-- A progress sink that raises on every invocation. -/
def envC7 : Env where
  genQueries := fun _ => (0, .ok [])
  retrieve := fun _ => (0, .ok [])
  extractLLM := fun _ => (0, .ok ([], []))
  reportChunks := []
  reportErr := none
  probe := none
  sink := some (fun _ => some "sinkboom")

/-- Query generation returns no candidates in round one; a (non-throwing)
sink observes the run. -/
def env4w : Env where
  genQueries := fun _ => (0, .ok [])
  retrieve := fun _ => (0, .ok [])
  extractLLM := fun _ => (0, .ok ([], []))
  reportChunks := ["X"]
  reportErr := none
  probe := none
  sink := some (fun _ => none)

/-- One learning is gathered; the report stream yields one chunk and then the
provider raises. -/
def env8w : Env where
  genQueries := fun _ => (0, .ok [⟨"a", ""⟩])
  retrieve := fun _ => (0, .ok [["d"]])
  extractLLM := fun _ => (0, .ok (["learn1"], []))
  reportChunks := ["chunk1 "]
  reportErr := some "boom"
  probe := none
  sink := some (fun _ => none)

/-- The cancellation probe first returns true at probe call 2 — i.e. after the
round-one top check (call 0) and the first per-query check (call 1) have both
seen false — and stays true.  Depth is 1, so the loop exhausts `range(1)`
before any round-top check can observe the pending cancellation. -/
def env9c : Env where
  genQueries := fun _ => (0, .ok [⟨"a", "g"⟩])
  retrieve := fun _ => (0, .ok [["doc"]])
  extractLLM := fun _ => (0, .ok (["L"], []))
  reportChunks := ["R"]
  reportErr := none
  probe := some (fun i => 2 ≤ i)
  sink := some (fun _ => none)

/-- A probe that cancels immediately, for exercising the round-top stop. -/
def envW9 : Env where
  genQueries := fun _ => (0, .ok [⟨"a", "g"⟩])
  retrieve := fun _ => (0, .ok [["doc"]])
  extractLLM := fun _ => (0, .ok (["L"], []))
  reportChunks := ["R"]
  reportErr := none
  probe := some (fun _ => true)
  sink := some (fun _ => none)

/-- Every capability call raises; no sink, no probe. -/
def envAllFail : Env where
  genQueries := fun _ => (0, .error "genboom")
  retrieve := fun _ => (0, .error "ragboom")
  extractLLM := fun _ => (0, .error "exboom")
  reportChunks := []
  reportErr := some "repboom"
  probe := none
  sink := none

/-- A sink that raises on its very first invocation. -/
def envC7w : Env where
  genQueries := fun _ => (0, .ok [])
  retrieve := fun _ => (0, .ok [])
  extractLLM := fun _ => (0, .ok ([], []))
  reportChunks := []
  reportErr := none
  probe := none
  sink := some (fun _ => some "x")

/-- Round one has two candidates; the probe turns true at probe call 2, i.e.
at the per-query check preceding the second candidate, after the first
candidate already contributed the extraction batch `l :: rest`. -/
def env10 (l : String) (rest : List String) : Env where
  genQueries := fun _ => (0, .ok [⟨"qa", "ga"⟩, ⟨"qb", "gb"⟩])
  retrieve := fun _ => (0, .ok [["codedoc"]])
  extractLLM := fun _ => (0, .ok (l :: rest, []))
  reportChunks := ["R"]
  reportErr := none
  probe := some (fun i => 2 ≤ i)
  sink := some (fun _ => none)

/-! ### Basic lemmas about the building blocks -/

theorem pyTrunc_of_nonneg {α : Type} (n : Int) (hn : 0 ≤ n) (xs : List α) :
    pyTrunc n xs = xs.take n.toNat := by
  simp [pyTrunc, hn]

theorem pyTrunc_three {α : Type} (xs : List α) : pyTrunc 3 xs = xs.take 3 := by
  simp [pyTrunc]

theorem pyTrunc_length_le {α : Type} (n : Int) (hn : 0 ≤ n) (xs : List α) :
    (pyTrunc n xs).length ≤ n.toNat := by
  rw [pyTrunc_of_nonneg n hn]
  exact List.length_take_le n.toNat xs

theorem genResultOf_length_le (env : Env) (b : Int) (hb : 0 ≤ b) (i : Nat) :
    (genResultOf env b i).length ≤ b.toNat := by
  unfold genResultOf
  cases (env.genQueries i).2 with
  | error e => simp
  | ok raw => exact pyTrunc_length_le b hb raw

theorem callSink_state (env : Env) (m : String) (s : St) :
    ∃ k evs, (callSink env m s).1 = { s with sinkCalls := k, events := s.events ++ evs } ∧
      ∀ e ∈ evs, e = Event.progress m := by
  unfold callSink
  cases h : env.sink with
  | none => exact ⟨s.sinkCalls, [], by simp, by simp⟩
  | some f =>
    cases hf : f s.sinkCalls with
    | none => exact ⟨s.sinkCalls + 1, [.progress m], by simp [hf], by simp⟩
    | some e => exact ⟨s.sinkCalls + 1, [], by simp [hf], by simp⟩

theorem callSink_ok_some (env : Env) (m : String) (s s' : St) (u : Unit)
    (f : Nat → Option String) (hs : env.sink = some f)
    (h : callSink env m s = (s', .ok u)) :
    s'.events = s.events ++ [.progress m] := by
  unfold callSink at h
  rw [hs] at h
  cases hf : f s.sinkCalls with
  | none =>
    simp only [hf] at h
    injection h with h1 h2
    subst h1
    rfl
  | some e =>
    simp only [hf] at h
    injection h with h1 h2
    exact Except.noConfusion h2

theorem callSink_nothrow (env : Env) (m : String) (s : St)
    (h : sinkNeverThrows env) :
    callSink env m s = (sinkPush env m s, .ok ()) := by
  unfold callSink sinkPush
  cases hs : env.sink with
  | none => rfl
  | some f => simp [h f hs s.sinkCalls]

theorem sinkPush_now (env : Env) (m : String) (s : St) :
    (sinkPush env m s).now = s.now := by
  unfold sinkPush; cases env.sink <;> rfl

theorem sinkPush_totalQueries (env : Env) (m : String) (s : St) :
    (sinkPush env m s).totalQueries = s.totalQueries := by
  unfold sinkPush; cases env.sink <;> rfl

theorem sinkPush_genCalls (env : Env) (m : String) (s : St) :
    (sinkPush env m s).genCalls = s.genCalls := by
  unfold sinkPush; cases env.sink <;> rfl

theorem sinkPush_probeCalls (env : Env) (m : String) (s : St) :
    (sinkPush env m s).probeCalls = s.probeCalls := by
  unfold sinkPush; cases env.sink <;> rfl

theorem sinkPush_retCalls (env : Env) (m : String) (s : St) :
    (sinkPush env m s).retCalls = s.retCalls := by
  unfold sinkPush; cases env.sink <;> rfl

theorem sinkPush_extCalls (env : Env) (m : String) (s : St) :
    (sinkPush env m s).extCalls = s.extCalls := by
  unfold sinkPush; cases env.sink <;> rfl

theorem sinkPush_events (env : Env) (m : String) (s : St) :
    (sinkPush env m s).events = s.events ++ sinkEvs env m := by
  unfold sinkPush sinkEvs; cases env.sink <;> simp

theorem sinkEvs_progress (env : Env) (m : String) :
    ∀ e ∈ sinkEvs env m, e = Event.progress m := by
  unfold sinkEvs; cases env.sink <;> simp

theorem probeCheck_eq (env : Env) (s : St) :
    probeCheck env s = (probeFires env s, probeBump env s) := by
  unfold probeCheck probeFires probeBump
  cases env.probe <;> rfl

theorem probeBump_fields (env : Env) (s : St) :
    ∃ k, probeBump env s = { s with probeCalls := k } := by
  unfold probeBump
  cases env.probe with
  | none => exact ⟨s.probeCalls, by rfl⟩
  | some p => exact ⟨s.probeCalls + 1, rfl⟩

theorem learnedBatches_append (a b : List Event) :
    learnedBatches (a ++ b) = learnedBatches a ++ learnedBatches b := by
  simp [learnedBatches]

theorem countGen_append (a b : List Event) :
    countGen (a ++ b) = countGen a + countGen b := by
  simp [countGen]

theorem learnedBatches_of_progress (evs : List Event)
    (h : ∀ e ∈ evs, ∃ m, e = Event.progress m) : learnedBatches evs = [] := by
  induction evs with
  | nil => rfl
  | cons e rest ih =>
    obtain ⟨m, hm⟩ := h e (by simp)
    subst hm
    simpa [learnedBatches] using ih (fun e he => h e (by simp [he]))

theorem countGen_of_progress (evs : List Event)
    (h : ∀ e ∈ evs, ∃ m, e = Event.progress m) : countGen evs = 0 := by
  induction evs with
  | nil => rfl
  | cons e rest ih =>
    obtain ⟨m, hm⟩ := h e (by simp)
    subst hm
    simpa [countGen] using ih (fun e he => h e (by simp [he]))

theorem countGen_of_queryEvent (evs : List Event)
    (h : ∀ e ∈ evs, queryEvent e) : countGen evs = 0 := by
  induction evs with
  | nil => rfl
  | cons e rest ih =>
    have he := h e (by simp)
    have hrest := ih (fun e2 he2 => h e2 (by simp [he2]))
    cases e with
    | progress m => simpa [countGen] using hrest
    | dispatch t n => simpa [countGen] using hrest
    | learned i ls => simpa [countGen] using hrest
    | genCall t n => exact absurd he (by simp [queryEvent])
    | reportCall => exact absurd he (by simp [queryEvent])

theorem extractResultOf_fst (env : Env) (nf : Int) (i : Nat) :
    (extractResultOf env 3 nf i).1 = [] ∨
    ∃ raw fus, (env.extractLLM i).2 = .ok (raw, fus) ∧
      (extractResultOf env 3 nf i).1 = raw.take 3 := by
  unfold extractResultOf
  cases hx : (env.extractLLM i).2 with
  | error e => left; rfl
  | ok p =>
    cases p with
    | mk ls fs => right; exact ⟨ls, fs, rfl, pyTrunc_three ls⟩

theorem pstate_spec (env : Env) (b : Int) (docs : List String) (s2 : St) :
    (pstate env b docs s2).events = s2.events ∧
    (pstate env b docs s2).totalQueries = s2.totalQueries ∧
    (pstate env b docs s2).genCalls = s2.genCalls ∧
    (pstate env b docs s2).sinkCalls = s2.sinkCalls ∧
    (pstate env b docs s2).probeCalls = s2.probeCalls ∧
    (plearn env b docs s2 = [] ∨
     ∃ raw fus, (env.extractLLM s2.extCalls).2 = .ok (raw, fus) ∧
       plearn env b docs s2 = raw.take 3) := by
  unfold pstate plearn process_research_results
  split
  · exact ⟨rfl, rfl, rfl, rfl, rfl, Or.inl rfl⟩
  · split
    · exact ⟨rfl, rfl, rfl, rfl, rfl, Or.inl rfl⟩
    · exact ⟨rfl, rfl, rfl, rfl, rfl, extractResultOf_fst env b s2.extCalls⟩

theorem runHandler_spec (env : Env) (q : String) (itL : List String) (s s' : St)
    (out : QStep) (h : runHandler env q itL s = (s', out)) :
    ∃ evs, s'.events = s.events ++ evs ∧ (∀ e ∈ evs, ∃ m, e = Event.progress m) ∧
      s'.totalQueries = s.totalQueries ∧ s'.genCalls = s.genCalls ∧
      (∀ itL2, out = QStep.next itL2 → itL2 = itL) := by
  unfold runHandler at h
  obtain ⟨k, evs, hst, hevs⟩ := callSink_state env (exceptNarr q) s
  cases hc : callSink env (exceptNarr q) s with
  | mk s1 r =>
    rw [hc] at h hst
    have hst2 : s1 = { s with sinkCalls := k, events := s.events ++ evs } := hst
    subst hst2
    cases r with
    | error e2 =>
      injection h with h1 h2
      subst h1
      exact ⟨evs, rfl, fun e he => ⟨_, hevs e he⟩, rfl, rfl,
        fun itL2 hout => by rw [← h2] at hout; exact QStep.noConfusion hout⟩
    | ok u =>
      injection h with h1 h2
      subst h1
      refine ⟨evs, rfl, fun e he => ⟨_, hevs e he⟩, rfl, rfl, fun itL2 hout => ?_⟩
      rw [← h2] at hout
      injection hout with h3
      exact h3.symm

theorem tail_progress_spec (env : Env) (itL : List String) (out : QStep)
    (evs : List Event)
    (hp : ∀ e ∈ evs, ∃ m, e = Event.progress m)
    (hnext : ∀ itL2, out = QStep.next itL2 → itL2 = itL) :
    (∀ e ∈ evs, queryEvent e) ∧
    (∀ i ls, Event.learned i ls ∈ evs → extractOkAt env i ls) ∧
    (∀ itL2, out = QStep.next itL2 → itL2 = itL ++ (learnedBatches evs).flatten) := by
  refine ⟨?_, ?_, ?_⟩
  · intro e he
    obtain ⟨m, hm⟩ := hp e he
    subst hm
    exact trivial
  · intro i ls hl
    obtain ⟨m, hm⟩ := hp _ hl
    exact Event.noConfusion hm
  · intro itL2 hout
    rw [hnext itL2 hout, learnedBatches_of_progress evs hp]
    simp

theorem noDocsPath_spec (env : Env) (q : String) (itL : List String) (s s' : St)
    (out : QStep) (h : noDocsPath env q itL s = (s', out)) :
    ∃ evs, s'.events = s.events ++ evs ∧ (∀ e ∈ evs, ∃ m, e = Event.progress m) ∧
      s'.totalQueries = s.totalQueries ∧ s'.genCalls = s.genCalls ∧
      (∀ itL2, out = QStep.next itL2 → itL2 = itL) := by
  unfold noDocsPath at h
  obtain ⟨k, evs, hst, hevs⟩ :=
    callSink_state env ("<think>No relevant code found for: " ++ q ++ "</think>") s
  cases hc : callSink env ("<think>No relevant code found for: " ++ q ++ "</think>") s with
  | mk s1 r =>
    rw [hc] at h hst
    have hst2 : s1 = { s with sinkCalls := k, events := s.events ++ evs } := hst
    subst hst2
    cases r with
    | error e2 =>
      obtain ⟨evs2, hev2, hp2, ht2, hg2, hn2⟩ := runHandler_spec env q itL _ s' out h
      refine ⟨evs ++ evs2, ?_, ?_, ?_, ?_, hn2⟩
      · rw [hev2]; simp
      · intro e he
        rcases List.mem_append.mp he with h1 | h2
        · exact ⟨_, hevs e h1⟩
        · exact hp2 e h2
      · rw [ht2]
      · rw [hg2]
    | ok u =>
      injection h with h1 h2
      subst h1
      refine ⟨evs, rfl, fun e he => ⟨_, hevs e he⟩, rfl, rfl, fun itL2 hout => ?_⟩
      rw [← h2] at hout
      injection hout with h3
      exact h3.symm

theorem extractPhase_spec (env : Env) (b : Int) (qi : CandidateQuery)
    (docs : List String) (itL : List String) (s2 s' : St) (out : QStep)
    (h : extractPhase env b qi docs itL s2 = (s', out)) :
    ∃ tail, s'.events = s2.events ++ tail ∧
      (∀ e ∈ tail, queryEvent e) ∧
      (∀ i ls, Event.learned i ls ∈ tail → extractOkAt env i ls) ∧
      s'.totalQueries = s2.totalQueries ∧
      s'.genCalls = s2.genCalls ∧
      (∀ itL2, out = QStep.next itL2 → itL2 = itL ++ (learnedBatches tail).flatten) := by
  unfold extractPhase at h
  obtain ⟨hPev, hPt, hPg, hPs, hPp, hPres⟩ := pstate_spec env b docs s2
  by_cases hls : plearn env b docs s2 = []
  · rw [if_pos hls] at h
    injection h with h1 h2
    subst h1
    refine ⟨[], by rw [hPev]; simp, by simp, by simp, hPt, hPg, ?_⟩
    intro itL2 hout
    rw [← h2] at hout
    injection hout with h3
    simp [← h3, learnedBatches]
  · rw [if_neg hls] at h
    have hxok : extractOkAt env s2.extCalls (plearn env b docs s2) := by
      rcases hPres with hnil | ⟨raw, fus, hok, heq⟩
      · exact absurd hnil hls
      · exact ⟨raw, fus, hok, heq, hls⟩
    have hLev : (learnedPush env b docs s2).events =
        s2.events ++ [Event.learned s2.extCalls (plearn env b docs s2)] := by
      show (pstate env b docs s2).events ++ _ = _
      rw [hPev]
    have hLt : (learnedPush env b docs s2).totalQueries = s2.totalQueries := hPt
    have hLg : (learnedPush env b docs s2).genCalls = s2.genCalls := hPg
    obtain ⟨k2, evs2, hst2, hevs2⟩ := callSink_state env
      (extractedNarr (plearn env b docs s2).length qi.query) (learnedPush env b docs s2)
    cases hc2 : callSink env (extractedNarr (plearn env b docs s2).length qi.query)
        (learnedPush env b docs s2) with
    | mk s5 r2 =>
      rw [hc2] at h hst2
      have h5 : s5 = _ := hst2
      have h5ev : s5.events = (learnedPush env b docs s2).events ++ evs2 := by rw [h5]
      have h5t : s5.totalQueries = (learnedPush env b docs s2).totalQueries := by rw [h5]
      have h5g : s5.genCalls = (learnedPush env b docs s2).genCalls := by rw [h5]
      cases r2 with
      | error e2 =>
        obtain ⟨evs3, hev3, hp3, ht3, hg3, hn3⟩ :=
          runHandler_spec env qi.query (itL ++ plearn env b docs s2) _ s' out h
        refine ⟨[Event.learned s2.extCalls (plearn env b docs s2)] ++ (evs2 ++ evs3),
          ?_, ?_, ?_, ?_, ?_, ?_⟩
        · rw [hev3, h5ev, hLev]; simp
        · intro e he
          rcases List.mem_append.mp he with h1 | h2
          · rw [List.mem_singleton.mp h1]; exact trivial
          · rcases List.mem_append.mp h2 with h3 | h4
            · have hb := hevs2 e h3; subst hb; exact trivial
            · obtain ⟨m, hm⟩ := hp3 e h4; subst hm; exact trivial
        · intro i ls hl
          rcases List.mem_append.mp hl with h1 | h2
          · have h1b := List.mem_singleton.mp h1
            injection h1b with hi hls2
            subst hi; subst hls2
            exact hxok
          · rcases List.mem_append.mp h2 with h3 | h4
            · have := hevs2 _ h3; exact Event.noConfusion this
            · obtain ⟨m, hm⟩ := hp3 _ h4; exact Event.noConfusion hm
        · rw [ht3, h5t, hLt]
        · rw [hg3, h5g, hLg]
        · intro itL2 hout
          rw [hn3 itL2 hout, learnedBatches_append,
            learnedBatches_of_progress (evs2 ++ evs3) ?_]
          · simp [learnedBatches]
          · intro e he
            rcases List.mem_append.mp he with h3 | h4
            · exact ⟨_, hevs2 e h3⟩
            · exact hp3 e h4
      | ok u2 =>
        injection h with h1 h2
        subst h1
        refine ⟨[Event.learned s2.extCalls (plearn env b docs s2)] ++ evs2,
          ?_, ?_, ?_, ?_, ?_, ?_⟩
        · rw [h5ev, hLev]; simp
        · intro e he
          rcases List.mem_append.mp he with h1 | h2
          · rw [List.mem_singleton.mp h1]; exact trivial
          · have hb := hevs2 e h2; subst hb; exact trivial
        · intro i ls hl
          rcases List.mem_append.mp hl with h1 | h2
          · have h1b := List.mem_singleton.mp h1
            injection h1b with hi hls2
            subst hi; subst hls2
            exact hxok
          · have := hevs2 _ h2; exact Event.noConfusion this
        · rw [h5t, hLt]
        · rw [h5g, hLg]
        · intro itL2 hout
          rw [← h2] at hout
          injection hout with h3
          rw [← h3, learnedBatches_append,
            learnedBatches_of_progress evs2 (fun e he => ⟨_, hevs2 e he⟩)]
          simp [learnedBatches]
theorem docsPhase_spec (env : Env) (b : Int) (qi : CandidateQuery)
    (docs : List String) (itL : List String) (s1 s' : St) (out : QStep)
    (h : docsPhase env b qi docs itL s1 = (s', out)) :
    ∃ tail, s'.events = s1.events ++ tail ∧
      (∀ e ∈ tail, queryEvent e) ∧
      (∀ i ls, Event.learned i ls ∈ tail → extractOkAt env i ls) ∧
      s'.totalQueries = s1.totalQueries ∧
      s'.genCalls = s1.genCalls ∧
      (∀ itL2, out = QStep.next itL2 → itL2 = itL ++ (learnedBatches tail).flatten) := by
  unfold docsPhase at h
  obtain ⟨k1, evs1, hst1, hevs1⟩ := callSink_state env (foundNarr docs.length) s1
  split at h
  case _ s2 e1 heq =>
    rw [heq] at hst1
    have h2 : s2 = _ := hst1
    have h2ev : s2.events = s1.events ++ evs1 := by rw [h2]
    have h2t : s2.totalQueries = s1.totalQueries := by rw [h2]
    have h2g : s2.genCalls = s1.genCalls := by rw [h2]
    obtain ⟨evs, hev, hp, ht, hg, hn⟩ := runHandler_spec env qi.query itL _ s' out h
    obtain ⟨hq, hx, hnext⟩ := tail_progress_spec env itL out (evs1 ++ evs)
      (fun e he => (List.mem_append.mp he).elim (fun ha => ⟨_, hevs1 e ha⟩) (fun hb => hp e hb)) hn
    refine ⟨evs1 ++ evs, ?_, hq, hx, ?_, ?_, hnext⟩
    · rw [hev, h2ev]; simp
    · rw [ht, h2t]
    · rw [hg, h2g]
  case _ s2 u1 heq =>
    rw [heq] at hst1
    have h2 : s2 = _ := hst1
    have h2ev : s2.events = s1.events ++ evs1 := by rw [h2]
    have h2t : s2.totalQueries = s1.totalQueries := by rw [h2]
    have h2g : s2.genCalls = s1.genCalls := by rw [h2]
    obtain ⟨tail2, hev, hq, hx, ht, hg, hnext⟩ :=
      extractPhase_spec env b qi docs itL _ s' out h
    refine ⟨evs1 ++ tail2, ?_, ?_, ?_, ?_, ?_, ?_⟩
    · rw [hev, h2ev]; simp
    · intro e he
      rcases List.mem_append.mp he with ha | hb
      · have hc := hevs1 e ha; subst hc; exact trivial
      · exact hq e hb
    · intro i ls hl
      rcases List.mem_append.mp hl with ha | hb
      · have hc := hevs1 _ ha; exact Event.noConfusion hc
      · exact hx i ls hb
    · rw [ht, h2t]
    · rw [hg, h2g]
    · intro itL2 hout
      rw [hnext itL2 hout, learnedBatches_append,
        learnedBatches_of_progress evs1 (fun e he => ⟨_, hevs1 e he⟩)]
      simp

theorem handleQuery_spec (env : Env) (b : Int) (qi : CandidateQuery)
    (itL : List String) (s s' : St) (out : QStep)
    (h : handleQuery env b qi itL s = (s', out)) :
    ∃ tail, s'.events = s.events ++ tail ∧
      (∀ e ∈ tail, queryEvent e) ∧
      (∀ i ls, Event.learned i ls ∈ tail → extractOkAt env i ls) ∧
      s'.totalQueries = s.totalQueries ∧
      s'.genCalls = s.genCalls ∧
      (∀ itL2, out = QStep.next itL2 → itL2 = itL ++ (learnedBatches tail).flatten) := by
  unfold handleQuery at h
  have hrbev : (retrieveBump env s).events = s.events := rfl
  have hrbt : (retrieveBump env s).totalQueries = s.totalQueries := rfl
  have hrbg : (retrieveBump env s).genCalls = s.genCalls := rfl
  split at h
  · obtain ⟨evs, hev, hp, ht, hg, hn⟩ := runHandler_spec env qi.query itL _ s' out h
    obtain ⟨hq, hx, hnext⟩ := tail_progress_spec env itL out evs hp hn
    exact ⟨evs, by rw [hev, hrbev], hq, hx, by rw [ht, hrbt], by rw [hg, hrbg], hnext⟩
  · obtain ⟨evs, hev, hp, ht, hg, hn⟩ := noDocsPath_spec env qi.query itL _ s' out h
    obtain ⟨hq, hx, hnext⟩ := tail_progress_spec env itL out evs hp hn
    exact ⟨evs, by rw [hev, hrbev], hq, hx, by rw [ht, hrbt], by rw [hg, hrbg], hnext⟩
  · rename_i x docs rest heq
    split at h
    · obtain ⟨evs, hev, hp, ht, hg, hn⟩ := noDocsPath_spec env qi.query itL _ s' out h
      obtain ⟨hq, hx, hnext⟩ := tail_progress_spec env itL out evs hp hn
      exact ⟨evs, by rw [hev, hrbev], hq, hx, by rw [ht, hrbt], by rw [hg, hrbg], hnext⟩
    · obtain ⟨tail, hev, hq, hx, ht, hg, hnext⟩ :=
        docsPhase_spec env b qi docs itL _ s' out h
      exact ⟨tail, by rw [hev, hrbev], hq, hx, by rw [ht, hrbt], by rw [hg, hrbg], hnext⟩
theorem dispatchBump_events (s : St) :
    (dispatchBump s).events = s.events ++ [Event.dispatch s.now (s.totalQueries + 1)] := rfl

theorem dispatchBump_total (s : St) :
    (dispatchBump s).totalQueries = s.totalQueries + 1 := rfl

theorem dispatchBump_genCalls (s : St) : (dispatchBump s).genCalls = s.genCalls := rfl

theorem probeBump_of_eq (env : Env) (s s1 : St) (c : Bool)
    (heq : probeCheck env s = (c, s1)) :
    ∃ k, s1 = { s with probeCalls := k } := by
  obtain ⟨k, hk⟩ := probeBump_fields env s
  rw [probeCheck_eq env s] at heq
  injection heq with hf hb
  exact ⟨k, by rw [← hb, hk]⟩

theorem learnedBatches_dispatch_cons (t n : Nat) (l : List Event) :
    learnedBatches (Event.dispatch t n :: l) = learnedBatches l := rfl

theorem queryLoop_spec (env : Env) (b : Int) :
    ∀ (qs : List CandidateQuery) (itL : List String) (s s' : St)
      (r : Except String (List String)),
      queryLoop env b qs itL s = (s', r) →
      ∃ tail, s'.events = s.events ++ tail ∧
        (∀ e ∈ tail, queryEvent e) ∧
        (∀ i ls, Event.learned i ls ∈ tail → extractOkAt env i ls) ∧
        s'.totalQueries ≤ s.totalQueries + qs.length ∧
        s'.genCalls = s.genCalls ∧
        (∀ itL2, r = .ok itL2 → itL2 = itL ++ (learnedBatches tail).flatten) := by
  intro qs
  induction qs with
  | nil =>
    intro itL s s' r h
    simp only [queryLoop] at h
    injection h with h1 h2
    subst h1
    refine ⟨[], by simp, by simp, by simp, by simp, rfl, fun itL2 hok => ?_⟩
    rw [← h2] at hok
    injection hok with h3
    simp [← h3, learnedBatches]
  | cons qi rest ih =>
    intro itL s s' r h
    simp only [queryLoop] at h
    split at h
    case _ s1 heq =>
      obtain ⟨k, hk⟩ := probeBump_of_eq env s s1 true heq
      injection h with h1 h2
      subst h1
      refine ⟨[], by rw [hk]; simp, by simp, by simp, by rw [hk]; simp, by rw [hk],
        fun itL2 hok => ?_⟩
      rw [← h2] at hok
      injection hok with h3
      simp [← h3, learnedBatches]
    case _ s1 heq =>
      obtain ⟨k, hk⟩ := probeBump_of_eq env s s1 false heq
      have h1ev : s1.events = s.events := by rw [hk]
      have h1t : s1.totalQueries = s.totalQueries := by rw [hk]
      have h1g : s1.genCalls = s.genCalls := by rw [hk]
      have h1now : s1.now = s.now := by rw [hk]
      split at h
      · -- empty search string: dispatch then continue
        obtain ⟨tail, hev, hq, hx, ht, hg, hn⟩ := ih itL (dispatchBump s1) s' r h
        refine ⟨Event.dispatch s1.now (s1.totalQueries + 1) :: tail, ?_, ?_, ?_, ?_, ?_, ?_⟩
        · rw [hev, dispatchBump_events, h1ev]; simp
        · intro e he
          rcases List.mem_cons.mp he with ha | hb
          · subst ha; exact trivial
          · exact hq e hb
        · intro i ls hl
          rcases List.mem_cons.mp hl with ha | hb
          · exact absurd ha (by simp)
          · exact hx i ls hb
        · have := ht
          rw [dispatchBump_total, h1t] at this
          simp only [List.length_cons]
          omega
        · rw [hg, dispatchBump_genCalls, h1g]
        · intro itL2 hok
          rw [hn itL2 hok]
          simp [learnedBatches]
      · -- non-empty search string: the narration outside the try, then the try body
        obtain ⟨ks, evs, hsst, hsevs⟩ :=
          callSink_state env (searchNarr qi.query) (dispatchBump s1)
        split at h
        case _ s3 e heq2 =>
          rw [heq2] at hsst
          have h3 : s3 = _ := hsst
          injection h with h1 h2
          subst h1
          refine ⟨Event.dispatch s1.now (s1.totalQueries + 1) :: evs, ?_, ?_, ?_, ?_, ?_, ?_⟩
          · rw [h3]
            show (dispatchBump s1).events ++ evs = _
            rw [dispatchBump_events, h1ev]
            simp
          · intro e2 he2
            rcases List.mem_cons.mp he2 with ha | hb
            · subst ha; exact trivial
            · rw [hsevs e2 hb]; exact trivial
          · intro i ls hl
            rcases List.mem_cons.mp hl with ha | hb
            · exact absurd ha (by simp)
            · exact absurd (hsevs _ hb) (by simp)
          · have h3t : s3.totalQueries = (dispatchBump s1).totalQueries := by rw [h3]
            rw [h3t, dispatchBump_total, h1t]
            simp only [List.length_cons]
            omega
          · have h3g : s3.genCalls = (dispatchBump s1).genCalls := by rw [h3]
            rw [h3g, dispatchBump_genCalls, h1g]
          · intro itL2 hok
            rw [← h2] at hok
            exact Except.noConfusion hok
        case _ s3 u heq2 =>
          rw [heq2] at hsst
          have h3 : s3 = _ := hsst
          have h3ev : s3.events = (dispatchBump s1).events ++ evs := by rw [h3]
          have h3t : s3.totalQueries = (dispatchBump s1).totalQueries := by rw [h3]
          have h3g : s3.genCalls = (dispatchBump s1).genCalls := by rw [h3]
          split at h
          case _ s4 e heq3 =>
            obtain ⟨tail3, hev3, hq3, hx3, ht3, hg3, hn3⟩ :=
              handleQuery_spec env b qi itL s3 s4 (.abort e) heq3
            injection h with h1 h2
            subst h1
            refine ⟨Event.dispatch s1.now (s1.totalQueries + 1) :: (evs ++ tail3),
              ?_, ?_, ?_, ?_, ?_, ?_⟩
            · rw [hev3, h3ev, dispatchBump_events, h1ev]; simp
            · intro e2 he2
              rcases List.mem_cons.mp he2 with ha | hb
              · subst ha; exact trivial
              · rcases List.mem_append.mp hb with hc | hd
                · rw [hsevs e2 hc]; exact trivial
                · exact hq3 e2 hd
            · intro i ls hl
              rcases List.mem_cons.mp hl with ha | hb
              · exact absurd ha (by simp)
              · rcases List.mem_append.mp hb with hc | hd
                · exact absurd (hsevs _ hc) (by simp)
                · exact hx3 i ls hd
            · rw [ht3, h3t, dispatchBump_total, h1t]
              simp only [List.length_cons]
              omega
            · rw [hg3, h3g, dispatchBump_genCalls, h1g]
            · intro itL2 hok
              rw [← h2] at hok
              exact Except.noConfusion hok
          case _ s4 itL2 heq3 =>
            obtain ⟨tail3, hev3, hq3, hx3, ht3, hg3, hn3⟩ :=
              handleQuery_spec env b qi itL s3 s4 (.next itL2) heq3
            obtain ⟨tail4, hev4, hq4, hx4, ht4, hg4, hn4⟩ := ih itL2 s4 s' r h
            refine ⟨Event.dispatch s1.now (s1.totalQueries + 1) :: (evs ++ tail3 ++ tail4),
              ?_, ?_, ?_, ?_, ?_, ?_⟩
            · rw [hev4, hev3, h3ev, dispatchBump_events, h1ev]; simp
            · intro e2 he2
              rcases List.mem_cons.mp he2 with ha | hb
              · subst ha; exact trivial
              · rcases List.mem_append.mp hb with hc | hd
                · rcases List.mem_append.mp hc with hc1 | hc2
                  · rw [hsevs e2 hc1]; exact trivial
                  · exact hq3 e2 hc2
                · exact hq4 e2 hd
            · intro i ls hl
              rcases List.mem_cons.mp hl with ha | hb
              · exact absurd ha (by simp)
              · rcases List.mem_append.mp hb with hc | hd
                · rcases List.mem_append.mp hc with hc1 | hc2
                  · exact absurd (hsevs _ hc1) (by simp)
                  · exact hx3 i ls hc2
                · exact hx4 i ls hd
            · rw [ht3] at ht4
              rw [h3t, dispatchBump_total, h1t] at ht4
              simp only [List.length_cons]
              omega
            · rw [hg4, hg3, h3g, dispatchBump_genCalls, h1g]
            · intro itL3 hok
              rw [hn4 itL3 hok, hn3 itL2 rfl]
              have hb3 : learnedBatches evs = [] :=
                learnedBatches_of_progress evs (fun e he => ⟨_, hsevs e he⟩)
              rw [learnedBatches_dispatch_cons, learnedBatches_append,
                learnedBatches_append, hb3]
              simp
@[simp] theorem countGen_nil : countGen ([] : List Event) = 0 := rfl

@[simp] theorem learnedBatches_nil : learnedBatches ([] : List Event) = [] := rfl

theorem countGen_genCall_cons (t n : Nat) (l : List Event) :
    countGen (Event.genCall t n :: l) = countGen l + 1 := by
  simp [countGen]

theorem learnedBatches_genCall_cons (t n : Nat) (l : List Event) :
    learnedBatches (Event.genCall t n :: l) = learnedBatches l := rfl

theorem genBump_events (env : Env) (b : Int) (s : St) :
    (genBump env b s).events = s.events ++
      [Event.genCall s.now (genResultOf env b s.genCalls).length] := rfl

theorem genBump_total (env : Env) (b : Int) (s : St) :
    (genBump env b s).totalQueries = s.totalQueries := rfl

theorem roundLoop_spec (env : Env) (b d : Int) :
    ∀ (iters : List Nat) (all : List String) (s s' : St)
      (r : Except String (List String)),
      roundLoop env b d iters all s = (s', r) →
      ∃ tail, s'.events = s.events ++ tail ∧
        (∀ e ∈ tail, roundEventOk b e) ∧
        (∀ i ls, Event.learned i ls ∈ tail → extractOkAt env i ls) ∧
        countGen tail ≤ iters.length ∧
        (s.totalQueries ≤ 24 → 0 ≤ b → b ≤ 5 → s'.totalQueries ≤ 24) ∧
        (∀ all2, r = .ok all2 → all2 = all ++ (learnedBatches tail).flatten) := by
  intro iters
  induction iters with
  | nil =>
    intro all s s' r h
    simp only [roundLoop] at h
    injection h with h1 h2
    subst h1
    refine ⟨[], by simp, by simp, by simp, by simp, fun h24 hb hb5 => h24, fun all2 hok => ?_⟩
    rw [← h2] at hok
    injection hok with h3
    simp [← h3, learnedBatches]
  | cons it rest ih =>
    intro all s s' r h
    simp only [roundLoop] at h
    split at h
    case _ s1 heq =>
      -- cancellation fires at the round top
      obtain ⟨k, hk⟩ := probeBump_of_eq env s s1 true heq
      obtain ⟨kc, evs, hst, hevs⟩ := callSink_state env cancelNarr s1
      split at h
      case _ s2 e heqc =>
        rw [heqc] at hst
        have h2 : s2 = _ := hst
        injection h with ha hb
        subst ha
        refine ⟨evs, ?_, ?_, ?_, ?_, ?_, ?_⟩
        · rw [h2]
          show s1.events ++ evs = _
          rw [hk]
        · intro e2 he2; exact Or.inl (by rw [hevs e2 he2]; exact trivial)
        · intro i ls hl; exact absurd (hevs _ hl) (by simp)
        · rw [countGen_of_progress evs (fun e2 he2 => ⟨_, hevs e2 he2⟩)]; simp
        · intro h24 hb0 hb5
          have : s2.totalQueries = s1.totalQueries := by rw [h2]
          rw [this, hk]
          exact h24
        · intro all2 hok; rw [← hb] at hok; exact Except.noConfusion hok
      case _ s2 u heqc =>
        rw [heqc] at hst
        have h2 : s2 = _ := hst
        injection h with ha hb
        subst ha
        refine ⟨evs, ?_, ?_, ?_, ?_, ?_, ?_⟩
        · rw [h2]
          show s1.events ++ evs = _
          rw [hk]
        · intro e2 he2; exact Or.inl (by rw [hevs e2 he2]; exact trivial)
        · intro i ls hl; exact absurd (hevs _ hl) (by simp)
        · rw [countGen_of_progress evs (fun e2 he2 => ⟨_, hevs e2 he2⟩)]; simp
        · intro h24 hb0 hb5
          have : s2.totalQueries = s1.totalQueries := by rw [h2]
          rw [this, hk]
          exact h24
        · intro all2 hok
          rw [← hb] at hok
          injection hok with h3
          rw [← h3, learnedBatches_of_progress evs (fun e2 he2 => ⟨_, hevs e2 he2⟩)]
          simp
    case _ s1 heq =>
      obtain ⟨k, hk⟩ := probeBump_of_eq env s s1 false heq
      have h1ev : s1.events = s.events := by rw [hk]
      have h1t : s1.totalQueries = s.totalQueries := by rw [hk]
      have h1g : s1.genCalls = s.genCalls := by rw [hk]
      have h1now : s1.now = s.now := by rw [hk]
      split at h
      · -- timeout fires
        rename_i htime
        obtain ⟨kc, evs, hst, hevs⟩ := callSink_state env timeoutNarr s1
        split at h
        case _ s2 e heqc =>
          rw [heqc] at hst
          have h2 : s2 = _ := hst
          injection h with ha hb
          subst ha
          refine ⟨evs, ?_, ?_, ?_, ?_, ?_, ?_⟩
          · rw [h2]
            show s1.events ++ evs = _
            rw [h1ev]
          · intro e2 he2; exact Or.inl (by rw [hevs e2 he2]; exact trivial)
          · intro i ls hl; exact absurd (hevs _ hl) (by simp)
          · rw [countGen_of_progress evs (fun e2 he2 => ⟨_, hevs e2 he2⟩)]; simp
          · intro h24 hb0 hb5
            have h2t : s2.totalQueries = s1.totalQueries := by rw [h2]
            rw [h2t, h1t]
            exact h24
          · intro all2 hok; rw [← hb] at hok; exact Except.noConfusion hok
        case _ s2 u heqc =>
          rw [heqc] at hst
          have h2 : s2 = _ := hst
          injection h with ha hb
          subst ha
          refine ⟨evs, ?_, ?_, ?_, ?_, ?_, ?_⟩
          · rw [h2]
            show s1.events ++ evs = _
            rw [h1ev]
          · intro e2 he2; exact Or.inl (by rw [hevs e2 he2]; exact trivial)
          · intro i ls hl; exact absurd (hevs _ hl) (by simp)
          · rw [countGen_of_progress evs (fun e2 he2 => ⟨_, hevs e2 he2⟩)]; simp
          · intro h24 hb0 hb5
            have h2t : s2.totalQueries = s1.totalQueries := by rw [h2]
            rw [h2t, h1t]
            exact h24
          · intro all2 hok
            rw [← hb] at hok
            injection hok with h3
            rw [← h3, learnedBatches_of_progress evs (fun e2 he2 => ⟨_, hevs e2 he2⟩)]
            simp
      · rename_i htime
        split at h
        · -- query ceiling fires
          rename_i hlimit
          obtain ⟨kc, evs, hst, hevs⟩ := callSink_state env limitNarr s1
          split at h
          case _ s2 e heqc =>
            rw [heqc] at hst
            have h2 : s2 = _ := hst
            injection h with ha hb
            subst ha
            refine ⟨evs, ?_, ?_, ?_, ?_, ?_, ?_⟩
            · rw [h2]
              show s1.events ++ evs = _
              rw [h1ev]
            · intro e2 he2; exact Or.inl (by rw [hevs e2 he2]; exact trivial)
            · intro i ls hl; exact absurd (hevs _ hl) (by simp)
            · rw [countGen_of_progress evs (fun e2 he2 => ⟨_, hevs e2 he2⟩)]; simp
            · intro h24 hb0 hb5
              have h2t : s2.totalQueries = s1.totalQueries := by rw [h2]
              rw [h2t, h1t]
              exact h24
            · intro all2 hok; rw [← hb] at hok; exact Except.noConfusion hok
          case _ s2 u heqc =>
            rw [heqc] at hst
            have h2 : s2 = _ := hst
            injection h with ha hb
            subst ha
            refine ⟨evs, ?_, ?_, ?_, ?_, ?_, ?_⟩
            · rw [h2]
              show s1.events ++ evs = _
              rw [h1ev]
            · intro e2 he2; exact Or.inl (by rw [hevs e2 he2]; exact trivial)
            · intro i ls hl; exact absurd (hevs _ hl) (by simp)
            · rw [countGen_of_progress evs (fun e2 he2 => ⟨_, hevs e2 he2⟩)]; simp
            · intro h24 hb0 hb5
              have h2t : s2.totalQueries = s1.totalQueries := by rw [h2]
              rw [h2t, h1t]
              exact h24
            · intro all2 hok
              rw [← hb] at hok
              injection hok with h3
              rw [← h3, learnedBatches_of_progress evs (fun e2 he2 => ⟨_, hevs e2 he2⟩)]
              simp
        · -- round actually starts
          rename_i hlimit
          obtain ⟨ki, evs1, hsti, hevsi⟩ := callSink_state env (iterStartNarr it d) s1
          split at h
          case _ s2 e heqi =>
            rw [heqi] at hsti
            have h2 : s2 = _ := hsti
            injection h with ha hb
            subst ha
            refine ⟨evs1, ?_, ?_, ?_, ?_, ?_, ?_⟩
            · rw [h2]
              show s1.events ++ evs1 = _
              rw [h1ev]
            · intro e2 he2; exact Or.inl (by rw [hevsi e2 he2]; exact trivial)
            · intro i ls hl; exact absurd (hevsi _ hl) (by simp)
            · rw [countGen_of_progress evs1 (fun e2 he2 => ⟨_, hevsi e2 he2⟩)]; simp
            · intro h24 hb0 hb5
              have h2t : s2.totalQueries = s1.totalQueries := by rw [h2]
              rw [h2t, h1t]
              exact h24
            · intro all2 hok; rw [← hb] at hok; exact Except.noConfusion hok
          case _ s2 u heqi =>
            rw [heqi] at hsti
            have h2 : s2 = _ := hsti
            have h2ev : s2.events = s1.events ++ evs1 := by rw [h2]
            have h2t : s2.totalQueries = s1.totalQueries := by rw [h2]
            have h2g : s2.genCalls = s1.genCalls := by rw [h2]
            have h2now : s2.now = s1.now := by rw [h2]
            have hgce : Event.genCall s2.now (genResultOf env b s2.genCalls).length ∈
                ([Event.genCall s2.now (genResultOf env b s2.genCalls).length] : List Event) := by
              simp
            have hgev : ∀ e2 ∈ [Event.genCall s2.now (genResultOf env b s2.genCalls).length],
                roundEventOk b e2 := by
              intro e2 he2
              rw [List.mem_singleton.mp he2]
              refine Or.inr ⟨s2.now, (genResultOf env b s2.genCalls).length, rfl, ?_, ?_⟩
              · rw [h2now, h1now]
                rw [h1now] at htime
                omega
              · intro hb0
                exact genResultOf_length_le env b hb0 s2.genCalls
            split at h
            · -- no candidates generated
              rename_i hg0
              obtain ⟨kn, evs2, hstn, hevsn⟩ := callSink_state env noQueriesNarr (genBump env b s2)
              split at h
              case _ s4 e heqn =>
                rw [heqn] at hstn
                have h4 : s4 = _ := hstn
                injection h with ha hb
                subst ha
                refine ⟨evs1 ++ [Event.genCall s2.now (genResultOf env b s2.genCalls).length] ++ evs2,
                  ?_, ?_, ?_, ?_, ?_, ?_⟩
                · rw [h4]
                  show (genBump env b s2).events ++ evs2 = _
                  rw [genBump_events, h2ev, h1ev]
                  simp
                · intro e2 he2
                  rcases List.mem_append.mp he2 with ha2 | hb2
                  · rcases List.mem_append.mp ha2 with hc2 | hd2
                    · exact Or.inl (by rw [hevsi e2 hc2]; exact trivial)
                    · exact hgev e2 hd2
                  · exact Or.inl (by rw [hevsn e2 hb2]; exact trivial)
                · intro i ls hl
                  rcases List.mem_append.mp hl with ha2 | hb2
                  · rcases List.mem_append.mp ha2 with hc2 | hd2
                    · exact absurd (hevsi _ hc2) (by simp)
                    · exact absurd (List.mem_singleton.mp hd2) (by simp)
                  · exact absurd (hevsn _ hb2) (by simp)
                · rw [countGen_append, countGen_append,
                    countGen_of_progress evs1 (fun e2 he2 => ⟨_, hevsi e2 he2⟩),
                    countGen_of_progress evs2 (fun e2 he2 => ⟨_, hevsn e2 he2⟩),
                    countGen_genCall_cons]
                  simp
                · intro h24 hb0 hb5
                  have h4t : s4.totalQueries = (genBump env b s2).totalQueries := by rw [h4]
                  rw [h4t, genBump_total, h2t, h1t]
                  exact h24
                · intro all2 hok; rw [← hb] at hok; exact Except.noConfusion hok
              case _ s4 u2 heqn =>
                rw [heqn] at hstn
                have h4 : s4 = _ := hstn
                injection h with ha hb
                subst ha
                refine ⟨evs1 ++ [Event.genCall s2.now (genResultOf env b s2.genCalls).length] ++ evs2,
                  ?_, ?_, ?_, ?_, ?_, ?_⟩
                · rw [h4]
                  show (genBump env b s2).events ++ evs2 = _
                  rw [genBump_events, h2ev, h1ev]
                  simp
                · intro e2 he2
                  rcases List.mem_append.mp he2 with ha2 | hb2
                  · rcases List.mem_append.mp ha2 with hc2 | hd2
                    · exact Or.inl (by rw [hevsi e2 hc2]; exact trivial)
                    · exact hgev e2 hd2
                  · exact Or.inl (by rw [hevsn e2 hb2]; exact trivial)
                · intro i ls hl
                  rcases List.mem_append.mp hl with ha2 | hb2
                  · rcases List.mem_append.mp ha2 with hc2 | hd2
                    · exact absurd (hevsi _ hc2) (by simp)
                    · exact absurd (List.mem_singleton.mp hd2) (by simp)
                  · exact absurd (hevsn _ hb2) (by simp)
                · rw [countGen_append, countGen_append,
                    countGen_of_progress evs1 (fun e2 he2 => ⟨_, hevsi e2 he2⟩),
                    countGen_of_progress evs2 (fun e2 he2 => ⟨_, hevsn e2 he2⟩),
                    countGen_genCall_cons]
                  simp
                · intro h24 hb0 hb5
                  have h4t : s4.totalQueries = (genBump env b s2).totalQueries := by rw [h4]
                  rw [h4t, genBump_total, h2t, h1t]
                  exact h24
                · intro all2 hok
                  rw [← hb] at hok
                  injection hok with h3
                  rw [← h3, learnedBatches_append, learnedBatches_append,
                    learnedBatches_of_progress evs1 (fun e2 he2 => ⟨_, hevsi e2 he2⟩),
                    learnedBatches_of_progress evs2 (fun e2 he2 => ⟨_, hevsn e2 he2⟩)]
                  simp [learnedBatches]
            · -- candidates generated: run the query fan-out
              rename_i hgne
              split at h
              case _ s4 e heqq =>
                obtain ⟨tailQ, hevQ, hqQ, hxQ, htQ, hgQ, hnQ⟩ :=
                  queryLoop_spec env b (genResultOf env b s2.genCalls) [] (genBump env b s2) s4
                    (.error e) heqq
                injection h with ha hb
                subst ha
                refine ⟨evs1 ++ [Event.genCall s2.now (genResultOf env b s2.genCalls).length] ++ tailQ,
                  ?_, ?_, ?_, ?_, ?_, ?_⟩
                · rw [hevQ, genBump_events, h2ev, h1ev]
                  simp
                · intro e2 he2
                  rcases List.mem_append.mp he2 with ha2 | hb2
                  · rcases List.mem_append.mp ha2 with hc2 | hd2
                    · exact Or.inl (by rw [hevsi e2 hc2]; exact trivial)
                    · exact hgev e2 hd2
                  · exact Or.inl (hqQ e2 hb2)
                · intro i ls hl
                  rcases List.mem_append.mp hl with ha2 | hb2
                  · rcases List.mem_append.mp ha2 with hc2 | hd2
                    · exact absurd (hevsi _ hc2) (by simp)
                    · exact absurd (List.mem_singleton.mp hd2) (by simp)
                  · exact hxQ i ls hb2
                · rw [countGen_append, countGen_append,
                    countGen_of_progress evs1 (fun e2 he2 => ⟨_, hevsi e2 he2⟩),
                    countGen_of_queryEvent tailQ hqQ, countGen_genCall_cons]
                  simp
                · intro h24 hb0 hb5
                  have hlen := genResultOf_length_le env b hb0 s2.genCalls
                  have hb5n : b.toNat ≤ 5 := by omega
                  rw [genBump_total, h2t, h1t] at htQ; simp only [MAX_TOTAL_QUERIES] at hlimit
                  omega
                · intro all2 hok; rw [← hb] at hok; exact Except.noConfusion hok
              case _ s4 itL heqq =>
                obtain ⟨tailQ, hevQ, hqQ, hxQ, htQ, hgQ, hnQ⟩ :=
                  queryLoop_spec env b (genResultOf env b s2.genCalls) [] (genBump env b s2) s4
                    (.ok itL) heqq
                have hitL : itL = (learnedBatches tailQ).flatten := by
                  have := hnQ itL rfl
                  simpa using this
                split at h
                · -- empty round buffer
                  rename_i hit0
                  obtain ⟨kn, evs5, hstn, hevsn⟩ := callSink_state env (iterNoneNarr it) s4
                  split at h
                  case _ s5 e heqn =>
                    rw [heqn] at hstn
                    have h5 : s5 = _ := hstn
                    injection h with ha hb
                    subst ha
                    refine ⟨evs1 ++ [Event.genCall s2.now (genResultOf env b s2.genCalls).length] ++
                      (tailQ ++ evs5), ?_, ?_, ?_, ?_, ?_, ?_⟩
                    · rw [h5]
                      show s4.events ++ evs5 = _
                      rw [hevQ, genBump_events, h2ev, h1ev]
                      simp
                    · intro e2 he2
                      rcases List.mem_append.mp he2 with ha2 | hb2
                      · rcases List.mem_append.mp ha2 with hc2 | hd2
                        · exact Or.inl (by rw [hevsi e2 hc2]; exact trivial)
                        · exact hgev e2 hd2
                      · rcases List.mem_append.mp hb2 with hc2 | hd2
                        · exact Or.inl (hqQ e2 hc2)
                        · exact Or.inl (by rw [hevsn e2 hd2]; exact trivial)
                    · intro i ls hl
                      rcases List.mem_append.mp hl with ha2 | hb2
                      · rcases List.mem_append.mp ha2 with hc2 | hd2
                        · exact absurd (hevsi _ hc2) (by simp)
                        · exact absurd (List.mem_singleton.mp hd2) (by simp)
                      · rcases List.mem_append.mp hb2 with hc2 | hd2
                        · exact hxQ i ls hc2
                        · exact absurd (hevsn _ hd2) (by simp)
                    · rw [countGen_append, countGen_append, countGen_append,
                        countGen_of_progress evs1 (fun e2 he2 => ⟨_, hevsi e2 he2⟩),
                        countGen_of_progress evs5 (fun e2 he2 => ⟨_, hevsn e2 he2⟩),
                        countGen_of_queryEvent tailQ hqQ, countGen_genCall_cons]
                      simp
                    · intro h24 hb0 hb5
                      have hlen := genResultOf_length_le env b hb0 s2.genCalls
                      have hb5n : b.toNat ≤ 5 := by omega
                      rw [genBump_total, h2t, h1t] at htQ; simp only [MAX_TOTAL_QUERIES] at hlimit
                      have h5t : s5.totalQueries = s4.totalQueries := by rw [h5]
                      rw [h5t]
                      omega
                    · intro all2 hok; rw [← hb] at hok; exact Except.noConfusion hok
                  case _ s5 u2 heqn =>
                    rw [heqn] at hstn
                    have h5 : s5 = _ := hstn
                    have h5ev : s5.events = s4.events ++ evs5 := by rw [h5]
                    have h5t : s5.totalQueries = s4.totalQueries := by rw [h5]
                    obtain ⟨tailR, hevR, hqR, hxR, hcR, htR, hnR⟩ := ih all s5 s' r h
                    refine ⟨evs1 ++ [Event.genCall s2.now (genResultOf env b s2.genCalls).length] ++
                      (tailQ ++ evs5 ++ tailR), ?_, ?_, ?_, ?_, ?_, ?_⟩
                    · rw [hevR, h5ev, hevQ, genBump_events, h2ev, h1ev]
                      simp
                    · intro e2 he2
                      rcases List.mem_append.mp he2 with ha2 | hb2
                      · rcases List.mem_append.mp ha2 with hc2 | hd2
                        · exact Or.inl (by rw [hevsi e2 hc2]; exact trivial)
                        · exact hgev e2 hd2
                      · rcases List.mem_append.mp hb2 with hc2 | hd2
                        · rcases List.mem_append.mp hc2 with hc3 | hd3
                          · exact Or.inl (hqQ e2 hc3)
                          · exact Or.inl (by rw [hevsn e2 hd3]; exact trivial)
                        · exact hqR e2 hd2
                    · intro i ls hl
                      rcases List.mem_append.mp hl with ha2 | hb2
                      · rcases List.mem_append.mp ha2 with hc2 | hd2
                        · exact absurd (hevsi _ hc2) (by simp)
                        · exact absurd (List.mem_singleton.mp hd2) (by simp)
                      · rcases List.mem_append.mp hb2 with hc2 | hd2
                        · rcases List.mem_append.mp hc2 with hc3 | hd3
                          · exact hxQ i ls hc3
                          · exact absurd (hevsn _ hd3) (by simp)
                        · exact hxR i ls hd2
                    · rw [countGen_append, countGen_append, countGen_append, countGen_append,
                        countGen_of_progress evs1 (fun e2 he2 => ⟨_, hevsi e2 he2⟩),
                        countGen_of_progress evs5 (fun e2 he2 => ⟨_, hevsn e2 he2⟩),
                        countGen_of_queryEvent tailQ hqQ, countGen_genCall_cons]
                      simp only [List.length_cons, countGen_nil]
                      omega
                    · intro h24 hb0 hb5
                      have hlen := genResultOf_length_le env b hb0 s2.genCalls
                      have hb5n : b.toNat ≤ 5 := by omega
                      rw [genBump_total, h2t, h1t] at htQ; simp only [MAX_TOTAL_QUERIES] at hlimit
                      refine htR ?_ hb0 hb5
                      rw [h5t]
                      omega
                    · intro all2 hok
                      rw [hnR all2 hok]
                      rw [learnedBatches_append, learnedBatches_append, learnedBatches_append,
                        learnedBatches_append,
                        learnedBatches_of_progress evs1 (fun e2 he2 => ⟨_, hevsi e2 he2⟩),
                        learnedBatches_of_progress evs5 (fun e2 he2 => ⟨_, hevsn e2 he2⟩)]
                      have hQ0 : (learnedBatches tailQ).flatten = [] := by rw [← hitL, hit0]
                      rw [learnedBatches_genCall_cons, learnedBatches_nil]
                      simp [hQ0]
                · -- non-empty round buffer: extend all_learnings
                  rename_i hitne
                  obtain ⟨kn, evs5, hstn, hevsn⟩ := callSink_state env (iterDoneNarr it itL.length) s4
                  split at h
                  case _ s5 e heqn =>
                    rw [heqn] at hstn
                    have h5 : s5 = _ := hstn
                    injection h with ha hb
                    subst ha
                    refine ⟨evs1 ++ [Event.genCall s2.now (genResultOf env b s2.genCalls).length] ++
                      (tailQ ++ evs5), ?_, ?_, ?_, ?_, ?_, ?_⟩
                    · rw [h5]
                      show s4.events ++ evs5 = _
                      rw [hevQ, genBump_events, h2ev, h1ev]
                      simp
                    · intro e2 he2
                      rcases List.mem_append.mp he2 with ha2 | hb2
                      · rcases List.mem_append.mp ha2 with hc2 | hd2
                        · exact Or.inl (by rw [hevsi e2 hc2]; exact trivial)
                        · exact hgev e2 hd2
                      · rcases List.mem_append.mp hb2 with hc2 | hd2
                        · exact Or.inl (hqQ e2 hc2)
                        · exact Or.inl (by rw [hevsn e2 hd2]; exact trivial)
                    · intro i ls hl
                      rcases List.mem_append.mp hl with ha2 | hb2
                      · rcases List.mem_append.mp ha2 with hc2 | hd2
                        · exact absurd (hevsi _ hc2) (by simp)
                        · exact absurd (List.mem_singleton.mp hd2) (by simp)
                      · rcases List.mem_append.mp hb2 with hc2 | hd2
                        · exact hxQ i ls hc2
                        · exact absurd (hevsn _ hd2) (by simp)
                    · rw [countGen_append, countGen_append, countGen_append,
                        countGen_of_progress evs1 (fun e2 he2 => ⟨_, hevsi e2 he2⟩),
                        countGen_of_progress evs5 (fun e2 he2 => ⟨_, hevsn e2 he2⟩),
                        countGen_of_queryEvent tailQ hqQ, countGen_genCall_cons]
                      simp
                    · intro h24 hb0 hb5
                      have hlen := genResultOf_length_le env b hb0 s2.genCalls
                      have hb5n : b.toNat ≤ 5 := by omega
                      rw [genBump_total, h2t, h1t] at htQ; simp only [MAX_TOTAL_QUERIES] at hlimit
                      have h5t : s5.totalQueries = s4.totalQueries := by rw [h5]
                      rw [h5t]
                      omega
                    · intro all2 hok; rw [← hb] at hok; exact Except.noConfusion hok
                  case _ s5 u2 heqn =>
                    rw [heqn] at hstn
                    have h5 : s5 = _ := hstn
                    have h5ev : s5.events = s4.events ++ evs5 := by rw [h5]
                    have h5t : s5.totalQueries = s4.totalQueries := by rw [h5]
                    obtain ⟨tailR, hevR, hqR, hxR, hcR, htR, hnR⟩ := ih (all ++ itL) s5 s' r h
                    refine ⟨evs1 ++ [Event.genCall s2.now (genResultOf env b s2.genCalls).length] ++
                      (tailQ ++ evs5 ++ tailR), ?_, ?_, ?_, ?_, ?_, ?_⟩
                    · rw [hevR, h5ev, hevQ, genBump_events, h2ev, h1ev]
                      simp
                    · intro e2 he2
                      rcases List.mem_append.mp he2 with ha2 | hb2
                      · rcases List.mem_append.mp ha2 with hc2 | hd2
                        · exact Or.inl (by rw [hevsi e2 hc2]; exact trivial)
                        · exact hgev e2 hd2
                      · rcases List.mem_append.mp hb2 with hc2 | hd2
                        · rcases List.mem_append.mp hc2 with hc3 | hd3
                          · exact Or.inl (hqQ e2 hc3)
                          · exact Or.inl (by rw [hevsn e2 hd3]; exact trivial)
                        · exact hqR e2 hd2
                    · intro i ls hl
                      rcases List.mem_append.mp hl with ha2 | hb2
                      · rcases List.mem_append.mp ha2 with hc2 | hd2
                        · exact absurd (hevsi _ hc2) (by simp)
                        · exact absurd (List.mem_singleton.mp hd2) (by simp)
                      · rcases List.mem_append.mp hb2 with hc2 | hd2
                        · rcases List.mem_append.mp hc2 with hc3 | hd3
                          · exact hxQ i ls hc3
                          · exact absurd (hevsn _ hd3) (by simp)
                        · exact hxR i ls hd2
                    · rw [countGen_append, countGen_append, countGen_append, countGen_append,
                        countGen_of_progress evs1 (fun e2 he2 => ⟨_, hevsi e2 he2⟩),
                        countGen_of_progress evs5 (fun e2 he2 => ⟨_, hevsn e2 he2⟩),
                        countGen_of_queryEvent tailQ hqQ, countGen_genCall_cons]
                      simp only [List.length_cons, countGen_nil]
                      omega
                    · intro h24 hb0 hb5
                      have hlen := genResultOf_length_le env b hb0 s2.genCalls
                      have hb5n : b.toNat ≤ 5 := by omega
                      rw [genBump_total, h2t, h1t] at htQ; simp only [MAX_TOTAL_QUERIES] at hlimit
                      refine htR ?_ hb0 hb5
                      rw [h5t]
                      omega
                    · intro all2 hok
                      rw [hnR all2 hok]
                      rw [learnedBatches_append, learnedBatches_append, learnedBatches_append,
                        learnedBatches_append,
                        learnedBatches_of_progress evs1 (fun e2 he2 => ⟨_, hevsi e2 he2⟩),
                        learnedBatches_of_progress evs5 (fun e2 he2 => ⟨_, hevsn e2 he2⟩)]
                      rw [learnedBatches_genCall_cons, learnedBatches_nil, hitL]
                      simp
theorem sinkEvs_some (env : Env) (m : String) (hne : env.sink ≠ none) :
    sinkEvs env m = [Event.progress m] := by
  unfold sinkEvs
  cases hs : env.sink with
  | none => exact absurd hs hne
  | some f => rfl

theorem runHandler_nothrow (env : Env) (h : sinkNeverThrows env) (q : String)
    (itL : List String) (s : St) :
    runHandler env q itL s = (sinkPush env (exceptNarr q) s, .next itL) := by
  unfold runHandler
  rw [callSink_nothrow env (exceptNarr q) s h]

theorem noDocsPath_nothrow (env : Env) (h : sinkNeverThrows env) (q : String)
    (itL : List String) (s : St) :
    noDocsPath env q itL s =
      (sinkPush env ("<think>No relevant code found for: " ++ q ++ "</think>") s,
       .next itL) := by
  unfold noDocsPath
  rw [callSink_nothrow env _ s h]

theorem extractPhase_nothrow (env : Env) (h : sinkNeverThrows env) (b : Int)
    (qi : CandidateQuery) (docs : List String) (itL : List String) (s2 : St) :
    ∃ s' itL2, extractPhase env b qi docs itL s2 = (s', QStep.next itL2) := by
  unfold extractPhase
  by_cases hls : plearn env b docs s2 = []
  · rw [if_pos hls]
    exact ⟨_, itL, rfl⟩
  · rw [if_neg hls, callSink_nothrow env _ _ h]
    exact ⟨_, itL ++ plearn env b docs s2, rfl⟩

theorem docsPhase_nothrow (env : Env) (h : sinkNeverThrows env) (b : Int)
    (qi : CandidateQuery) (docs : List String) (itL : List String) (s1 : St) :
    ∃ s' itL2, docsPhase env b qi docs itL s1 = (s', QStep.next itL2) := by
  unfold docsPhase
  rw [callSink_nothrow env _ s1 h]
  exact extractPhase_nothrow env h b qi docs itL _

theorem handleQuery_nothrow (env : Env) (h : sinkNeverThrows env) (b : Int)
    (qi : CandidateQuery) (itL : List String) (s : St) :
    ∃ s' itL2, handleQuery env b qi itL s = (s', QStep.next itL2) := by
  unfold handleQuery
  cases hr : (env.retrieve s.retCalls).2 with
  | error e => exact ⟨_, itL, runHandler_nothrow env h qi.query itL _⟩
  | ok results =>
    cases results with
    | nil => exact ⟨_, itL, noDocsPath_nothrow env h qi.query itL _⟩
    | cons docs rest =>
      dsimp only
      by_cases hd : docs = []
      · rw [if_pos hd]
        exact ⟨_, itL, noDocsPath_nothrow env h qi.query itL _⟩
      · rw [if_neg hd]
        exact docsPhase_nothrow env h b qi docs itL _

theorem queryLoop_nothrow (env : Env) (h : sinkNeverThrows env) (b : Int) :
    ∀ (qs : List CandidateQuery) (itL : List String) (s : St),
      ∃ s' itL2, queryLoop env b qs itL s = (s', Except.ok itL2) := by
  intro qs
  induction qs with
  | nil => exact fun itL s => ⟨s, itL, rfl⟩
  | cons qi rest ih =>
    intro itL s
    simp only [queryLoop]
    rw [probeCheck_eq env s]
    cases hpf : probeFires env s
    · dsimp only
      by_cases hq : qi.query = ""
      · rw [if_pos hq]
        exact ih itL (dispatchBump (probeBump env s))
      · rw [if_neg hq, callSink_nothrow env _ _ h]
        dsimp only
        obtain ⟨s4, itL2, h4⟩ := handleQuery_nothrow env h b qi itL
          (sinkPush env (searchNarr qi.query) (dispatchBump (probeBump env s)))
        rw [h4]
        exact ih itL2 s4
    · dsimp only
      exact ⟨probeBump env s, itL, rfl⟩

theorem roundLoop_nothrow (env : Env) (h : sinkNeverThrows env) (b d : Int) :
    ∀ (iters : List Nat) (all : List String) (s : St),
      ∃ s' all2, roundLoop env b d iters all s = (s', Except.ok all2) := by
  intro iters
  induction iters with
  | nil => exact fun all s => ⟨s, all, rfl⟩
  | cons it rest ih =>
    intro all s
    simp only [roundLoop]
    rw [probeCheck_eq env s]
    cases hpf : probeFires env s
    · dsimp only
      by_cases htime : MAX_RESEARCH_TIME < (probeBump env s).now
      · rw [if_pos htime, callSink_nothrow env _ _ h]
        exact ⟨_, all, rfl⟩
      · rw [if_neg htime]
        by_cases hlimit : MAX_TOTAL_QUERIES ≤ (probeBump env s).totalQueries
        · rw [if_pos hlimit, callSink_nothrow env _ _ h]
          exact ⟨_, all, rfl⟩
        · rw [if_neg hlimit, callSink_nothrow env _ _ h]
          dsimp only
          by_cases hg : genResultOf env b
              (sinkPush env (iterStartNarr it d) (probeBump env s)).genCalls = []
          · rw [if_pos hg, callSink_nothrow env _ _ h]
            exact ⟨_, all, rfl⟩
          · rw [if_neg hg]
            obtain ⟨s4, itL, h4⟩ := queryLoop_nothrow env h b
              (genResultOf env b (sinkPush env (iterStartNarr it d) (probeBump env s)).genCalls)
              [] (genBump env b (sinkPush env (iterStartNarr it d) (probeBump env s)))
            rw [h4]
            dsimp only
            by_cases hit : itL = []
            · rw [if_pos hit, callSink_nothrow env _ _ h]
              exact ih all _
            · rw [if_neg hit, callSink_nothrow env _ _ h]
              exact ih (all ++ itL) _
    · dsimp only
      rw [callSink_nothrow env _ _ h]
      exact ⟨_, all, rfl⟩

theorem streamChunks_nothrow (env : Env) (h : sinkNeverThrows env) :
    ∀ (cs acc : List String) (s : St),
      ∃ s', streamChunks env cs acc s = (s', .ok (acc ++ (cs ++ errList env))) ∧
        (∃ tail, s'.events = s.events ++ tail ∧ (∀ e ∈ tail, ∃ m, e = Event.progress m)) ∧
        (env.sink ≠ none → ∀ c ∈ cs ++ errList env, Event.progress c ∈ s'.events) := by
  intro cs
  induction cs with
  | nil =>
    intro acc s
    simp only [streamChunks]
    cases hre : env.reportErr with
    | none =>
      refine ⟨s, by simp [errList, hre], ⟨[], by simp, by simp⟩, ?_⟩
      intro hne c hc
      simp [errList, hre] at hc
    | some e =>
      dsimp only
      rw [callSink_nothrow env _ s h]
      refine ⟨_, by simp [errList, hre], ⟨sinkEvs env (reportErrMsg e), sinkPush_events env _ s,
        fun e2 he2 => ⟨_, sinkEvs_progress env _ e2 he2⟩⟩, ?_⟩
      intro hne c hc
      simp [errList, hre] at hc
      subst hc
      rw [sinkPush_events, sinkEvs_some env _ hne]
      simp
  | cons c rest ih =>
    intro acc s
    simp only [streamChunks]
    rw [callSink_nothrow env c s h]
    dsimp only
    obtain ⟨s', hs', ⟨tail, hev, hp⟩, hmem⟩ := ih (acc ++ [c]) (sinkPush env c s)
    refine ⟨s', by rw [hs']; simp, ⟨sinkEvs env c ++ tail, ?_, ?_⟩, ?_⟩
    · rw [hev, sinkPush_events]
      simp
    · intro e he
      rcases List.mem_append.mp he with ha | hb
      · exact ⟨_, sinkEvs_progress env c e ha⟩
      · exact hp e hb
    · intro hne c2 hc2
      rcases (by simpa using hc2 : c2 = c ∨ c2 ∈ rest ∨ c2 ∈ errList env) with ha | hb
      · subst ha
        rw [hev, sinkPush_events, sinkEvs_some env c2 hne]
        simp
      · exact hmem hne c2 (List.mem_append.mpr hb)
theorem run_char (env : Env) (q : String) (b d : Int) (h : sinkNeverThrows env) :
    ∃ s all, deep_research env q b d =
      (s, .ok (if all = [] then ⟨[], fallbackReport q⟩
               else ⟨all, String.join (env.reportChunks ++ errList env)⟩ : ResearchResult)) ∧
      (all = [] ∨ (env.sink ≠ none → ∀ c ∈ env.reportChunks ++ errList env,
        Event.progress c ∈ s.events)) := by
  unfold deep_research
  rw [callSink_nothrow env _ _ h]
  dsimp only
  obtain ⟨s1, all, h1⟩ := roundLoop_nothrow env h (min b MAX_QUERIES_PER_ITERATION) (min d 5)
    (List.range (min d 5).toNat) []
    (sinkPush env (startNarr (min d 5) (min b MAX_QUERIES_PER_ITERATION)) initSt)
  rw [h1]
  dsimp only
  rw [callSink_nothrow env _ _ h]
  dsimp only
  by_cases hall : all = []
  · subst hall
    rw [if_pos rfl, callSink_nothrow env _ _ h]
    exact ⟨_, [], rfl, Or.inl rfl⟩
  · rw [if_neg hall]
    unfold write_final_report_streaming
    obtain ⟨s3, hs3, hevtail, hmem⟩ := streamChunks_nothrow env h env.reportChunks []
      { sinkPush env reportStartNarr s1 with
        events := (sinkPush env reportStartNarr s1).events ++ [.reportCall] }
    simp only [List.nil_append] at hs3
    rw [hs3]
    refine ⟨s3, all, ?_, Or.inr (fun hne c hc => hmem hne c hc)⟩
    rw [if_neg hall]
theorem streamChunks_events (env : Env) :
    ∀ (cs acc : List String) (s s' : St) (rc : Except String (List String)),
      streamChunks env cs acc s = (s', rc) →
      ∃ tail, s'.events = s.events ++ tail ∧
        (∀ e ∈ tail, ∃ m, e = Event.progress m) ∧
        s'.totalQueries = s.totalQueries := by
  intro cs
  induction cs with
  | nil =>
    intro acc s s' rc hh
    simp only [streamChunks] at hh
    cases hre : env.reportErr with
    | none =>
      rw [hre] at hh
      injection hh with h1 h2
      subst h1
      exact ⟨[], by simp, by simp, rfl⟩
    | some e =>
      rw [hre] at hh
      dsimp only at hh
      obtain ⟨k, evs, hst, hevs⟩ := callSink_state env (reportErrMsg e) s
      revert hh
      cases hc : callSink env (reportErrMsg e) s with
      | mk s2 r2 =>
        intro hh
        rw [hc] at hst
        have h2 : s2 = _ := hst
        cases r2 with
        | error e2 =>
          injection hh with h1 _
          subst h1
          exact ⟨evs, by rw [h2], fun e2 he2 => ⟨_, hevs e2 he2⟩, by rw [h2]⟩
        | ok u =>
          injection hh with h1 _
          subst h1
          exact ⟨evs, by rw [h2], fun e2 he2 => ⟨_, hevs e2 he2⟩, by rw [h2]⟩
  | cons c rest ih =>
    intro acc s s' rc hh
    simp only [streamChunks] at hh
    obtain ⟨k, evs, hst, hevs⟩ := callSink_state env c s
    revert hh
    cases hc : callSink env c s with
    | mk s2 r2 =>
      intro hh
      rw [hc] at hst
      have h2 : s2 = _ := hst
      have h2ev : s2.events = s.events ++ evs := by rw [h2]
      have h2t : s2.totalQueries = s.totalQueries := by rw [h2]
      cases r2 with
      | ok u =>
        obtain ⟨tail, hev, hp, ht⟩ := ih (acc ++ [c]) s2 s' rc hh
        refine ⟨evs ++ tail, ?_, ?_, ?_⟩
        · rw [hev, h2ev]; simp
        · intro e2 he2
          rcases List.mem_append.mp he2 with ha | hb
          · exact ⟨_, hevs e2 ha⟩
          · exact hp e2 hb
        · rw [ht, h2t]
      | error e2 =>
        dsimp only at hh
        obtain ⟨k2, evs2, hst2, hevs2⟩ := callSink_state env (reportErrMsg e2) s2
        revert hh
        cases hc2 : callSink env (reportErrMsg e2) s2 with
        | mk s3 r3 =>
          intro hh
          rw [hc2] at hst2
          have h3 : s3 = _ := hst2
          have h3ev : s3.events = s2.events ++ evs2 := by rw [h3]
          have h3t : s3.totalQueries = s2.totalQueries := by rw [h3]
          cases r3 with
          | error e3 =>
            injection hh with h1 _
            subst h1
            refine ⟨evs ++ evs2, ?_, ?_, ?_⟩
            · rw [h3ev, h2ev]; simp
            · intro e4 he4
              rcases List.mem_append.mp he4 with ha | hb
              · exact ⟨_, hevs e4 ha⟩
              · exact ⟨_, hevs2 e4 hb⟩
            · rw [h3t, h2t]
          | ok u =>
            injection hh with h1 _
            subst h1
            refine ⟨evs ++ evs2, ?_, ?_, ?_⟩
            · rw [h3ev, h2ev]; simp
            · intro e4 he4
              rcases List.mem_append.mp he4 with ha | hb
              · exact ⟨_, hevs e4 ha⟩
              · exact ⟨_, hevs2 e4 hb⟩
            · rw [h3t, h2t]

theorem genCall_bound_of_tail (env : Env) (b : Int) (tail : List Event)
    (hq : ∀ e ∈ tail, roundEventOk (min b MAX_QUERIES_PER_ITERATION) e)
    (t n : Nat) (hmem : Event.genCall t n ∈ tail) :
    t ≤ MAX_RESEARCH_TIME ∧ (0 ≤ b → n ≤ (min b MAX_QUERIES_PER_ITERATION).toNat) := by
  rcases hq _ hmem with hqe | ⟨t2, n2, heq, ht2, hn2⟩
  · exact absurd hqe (by simp [queryEvent])
  · injection heq with h1 h2
    subst h1
    subst h2
    exact ⟨ht2, fun hb => hn2 (le_min hb (by decide))⟩

theorem no_reportCall_of_roundTail (b : Int) (tail : List Event)
    (hq : ∀ e ∈ tail, roundEventOk b e) : Event.reportCall ∉ tail := by
  intro hmem
  rcases hq _ hmem with hqe | ⟨t, n, heq, _⟩
  · exact hqe
  · exact Event.noConfusion heq
theorem run_master (env : Env) (q : String) (b d : Int) :
    ∀ s rr, deep_research env q b d = (s, rr) →
      (∀ t n, Event.genCall t n ∈ s.events →
        t ≤ MAX_RESEARCH_TIME ∧ (0 ≤ b → n ≤ (min b MAX_QUERIES_PER_ITERATION).toNat)) ∧
      countGen s.events ≤ (min d 5).toNat ∧
      (0 ≤ b → s.totalQueries ≤ 24) ∧
      (∀ i ls, Event.learned i ls ∈ s.events → extractOkAt env i ls) ∧
      (∀ r, rr = .ok r →
        r.learnings = (learnedBatches s.events).flatten ∧
        (r.learnings = [] →
          r.final_report = fallbackReport q ∧
          Event.reportCall ∉ s.events ∧
          (env.sink ≠ none → Event.progress (fallbackReport q) ∈ s.events))) := by
  intro s rr hrun
  unfold deep_research at hrun
  obtain ⟨k0, evs0, hst0, hevs0⟩ :=
    callSink_state env (startNarr (min d 5) (min b MAX_QUERIES_PER_ITERATION)) initSt
  revert hrun
  cases hc0 : callSink env (startNarr (min d 5) (min b MAX_QUERIES_PER_ITERATION)) initSt with
  | mk s0 r0 =>
    intro hrun
    rw [hc0] at hst0
    have h0 : s0 = _ := hst0
    have h0ev : s0.events = evs0 := by rw [h0]; rfl
    have h0t : s0.totalQueries = 0 := by rw [h0]; rfl
    cases r0 with
    | error e0 =>
      injection hrun with hs hr
      subst hs
      refine ⟨?_, ?_, ?_, ?_, ?_⟩
      · intro t n hmem
        rw [h0ev] at hmem
        exact absurd (hevs0 _ hmem) (by simp)
      · rw [h0ev, countGen_of_progress evs0 (fun e he => ⟨_, hevs0 e he⟩)]
        simp
      · intro hb
        rw [h0t]
        omega
      · intro i ls hmem
        rw [h0ev] at hmem
        exact absurd (hevs0 _ hmem) (by simp)
      · intro r hok
        rw [← hr] at hok
        exact Except.noConfusion hok
    | ok u0 =>
      dsimp only at hrun
      revert hrun
      cases hcL : roundLoop env (min b MAX_QUERIES_PER_ITERATION) (min d 5)
          (List.range (min d 5).toNat) [] s0 with
      | mk s1 rL =>
        intro hrun
        obtain ⟨tailL, hevL, hqL, hxL, hcntL, htotL, hokL⟩ :=
          roundLoop_spec env (min b MAX_QUERIES_PER_ITERATION) (min d 5)
            (List.range (min d 5).toNat) [] s0 s1 rL hcL
        have h1ev : s1.events = evs0 ++ tailL := by rw [hevL, h0ev]
        have hcnt1 : countGen tailL ≤ (min d 5).toNat := by
          simpa using hcntL
        have h1tot : 0 ≤ b → s1.totalQueries ≤ 24 := fun hb =>
          htotL (by rw [h0t]; omega) (le_min hb (by decide)) (min_le_right _ _)
        cases rL with
        | error eL =>
          injection hrun with hs hr
          subst hs
          refine ⟨?_, ?_, ?_, ?_, ?_⟩
          · intro t n hmem
            rw [h1ev] at hmem
            rcases List.mem_append.mp hmem with ha | hb2
            · exact absurd (hevs0 _ ha) (by simp)
            · exact genCall_bound_of_tail env b tailL hqL t n hb2
          · rw [h1ev, countGen_append,
              countGen_of_progress evs0 (fun e he => ⟨_, hevs0 e he⟩)]
            simpa using hcnt1
          · exact h1tot
          · intro i ls hmem
            rw [h1ev] at hmem
            rcases List.mem_append.mp hmem with ha | hb2
            · exact absurd (hevs0 _ ha) (by simp)
            · exact hxL i ls hb2
          · intro r hok
            rw [← hr] at hok
            exact Except.noConfusion hok
        | ok all =>
          dsimp only at hrun
          revert hrun
          obtain ⟨k2, evs2, hst2, hevs2⟩ := callSink_state env reportStartNarr s1
          cases hc2 : callSink env reportStartNarr s1 with
          | mk s2 r2 =>
            intro hrun
            rw [hc2] at hst2
            have h2 : s2 = _ := hst2
            have h2ev : s2.events = (evs0 ++ tailL) ++ evs2 := by
              rw [h2]
              show s1.events ++ evs2 = _
              rw [h1ev]
            have h2t : s2.totalQueries = s1.totalQueries := by rw [h2]
            have hall : all = (learnedBatches tailL).flatten := by
              simpa using hokL all rfl
            cases r2 with
            | error e2 =>
              injection hrun with hs hr
              subst hs
              refine ⟨?_, ?_, ?_, ?_, ?_⟩
              · intro t n hmem
                rw [h2ev] at hmem
                rcases List.mem_append.mp hmem with ha | hb2
                · rcases List.mem_append.mp ha with hc | hd
                  · exact absurd (hevs0 _ hc) (by simp)
                  · exact genCall_bound_of_tail env b tailL hqL t n hd
                · exact absurd (hevs2 _ hb2) (by simp)
              · rw [h2ev, countGen_append, countGen_append,
                  countGen_of_progress evs0 (fun e he => ⟨_, hevs0 e he⟩),
                  countGen_of_progress evs2 (fun e he => ⟨_, hevs2 e he⟩)]
                simpa using hcnt1
              · intro hb
                rw [h2t]
                exact h1tot hb
              · intro i ls hmem
                rw [h2ev] at hmem
                rcases List.mem_append.mp hmem with ha | hb2
                · rcases List.mem_append.mp ha with hc | hd
                  · exact absurd (hevs0 _ hc) (by simp)
                  · exact hxL i ls hd
                · exact absurd (hevs2 _ hb2) (by simp)
              · intro r hok
                rw [← hr] at hok
                exact Except.noConfusion hok
            | ok u2 =>
              dsimp only at hrun
              by_cases hallE : all = []
              · rw [if_pos hallE] at hrun
                revert hrun
                obtain ⟨k3, evs3, hst3, hevs3⟩ := callSink_state env (fallbackReport q) s2
                cases hc3 : callSink env (fallbackReport q) s2 with
                | mk s3 r3 =>
                  intro hrun
                  rw [hc3] at hst3
                  have h3 : s3 = _ := hst3
                  have h3ev : s3.events = ((evs0 ++ tailL) ++ evs2) ++ evs3 := by
                    rw [h3]
                    show s2.events ++ evs3 = _
                    rw [h2ev]
                  have h3t : s3.totalQueries = s2.totalQueries := by rw [h3]
                  have hLb0 : (learnedBatches tailL).flatten = [] := by rw [← hall, hallE]
                  cases r3 with
                  | error e3 =>
                    injection hrun with hs hr
                    subst hs
                    refine ⟨?_, ?_, ?_, ?_, ?_⟩
                    · intro t n hmem
                      rw [h3ev] at hmem
                      rcases List.mem_append.mp hmem with ha | hb2
                      · rcases List.mem_append.mp ha with hc | hd
                        · rcases List.mem_append.mp hc with he | hf
                          · exact absurd (hevs0 _ he) (by simp)
                          · exact genCall_bound_of_tail env b tailL hqL t n hf
                        · exact absurd (hevs2 _ hd) (by simp)
                      · exact absurd (hevs3 _ hb2) (by simp)
                    · rw [h3ev, countGen_append, countGen_append, countGen_append,
                        countGen_of_progress evs0 (fun e he => ⟨_, hevs0 e he⟩),
                        countGen_of_progress evs2 (fun e he => ⟨_, hevs2 e he⟩),
                        countGen_of_progress evs3 (fun e he => ⟨_, hevs3 e he⟩)]
                      simpa using hcnt1
                    · intro hb
                      rw [h3t, h2t]
                      exact h1tot hb
                    · intro i ls hmem
                      rw [h3ev] at hmem
                      rcases List.mem_append.mp hmem with ha | hb2
                      · rcases List.mem_append.mp ha with hc | hd
                        · rcases List.mem_append.mp hc with he | hf
                          · exact absurd (hevs0 _ he) (by simp)
                          · exact hxL i ls hf
                        · exact absurd (hevs2 _ hd) (by simp)
                      · exact absurd (hevs3 _ hb2) (by simp)
                    · intro r hok
                      rw [← hr] at hok
                      exact Except.noConfusion hok
                  | ok u3 =>
                    injection hrun with hs hr
                    subst hs
                    have hbatch : learnedBatches s3.events = learnedBatches tailL := by
                      rw [h3ev, learnedBatches_append, learnedBatches_append,
                        learnedBatches_append,
                        learnedBatches_of_progress evs0 (fun e he => ⟨_, hevs0 e he⟩),
                        learnedBatches_of_progress evs2 (fun e he => ⟨_, hevs2 e he⟩),
                        learnedBatches_of_progress evs3 (fun e he => ⟨_, hevs3 e he⟩)]
                      simp
                    refine ⟨?_, ?_, ?_, ?_, ?_⟩
                    · intro t n hmem
                      rw [h3ev] at hmem
                      rcases List.mem_append.mp hmem with ha | hb2
                      · rcases List.mem_append.mp ha with hc | hd
                        · rcases List.mem_append.mp hc with he | hf
                          · exact absurd (hevs0 _ he) (by simp)
                          · exact genCall_bound_of_tail env b tailL hqL t n hf
                        · exact absurd (hevs2 _ hd) (by simp)
                      · exact absurd (hevs3 _ hb2) (by simp)
                    · rw [h3ev, countGen_append, countGen_append, countGen_append,
                        countGen_of_progress evs0 (fun e he => ⟨_, hevs0 e he⟩),
                        countGen_of_progress evs2 (fun e he => ⟨_, hevs2 e he⟩),
                        countGen_of_progress evs3 (fun e he => ⟨_, hevs3 e he⟩)]
                      simpa using hcnt1
                    · intro hb
                      rw [h3t, h2t]
                      exact h1tot hb
                    · intro i ls hmem
                      rw [h3ev] at hmem
                      rcases List.mem_append.mp hmem with ha | hb2
                      · rcases List.mem_append.mp ha with hc | hd
                        · rcases List.mem_append.mp hc with he | hf
                          · exact absurd (hevs0 _ he) (by simp)
                          · exact hxL i ls hf
                        · exact absurd (hevs2 _ hd) (by simp)
                      · exact absurd (hevs3 _ hb2) (by simp)
                    · intro r hok
                      rw [← hr] at hok
                      injection hok with hrr
                      subst hrr
                      refine ⟨?_, fun _ => ⟨rfl, ?_, ?_⟩⟩
                      · show ([] : List String) = (learnedBatches s3.events).flatten
                        rw [hbatch, hLb0]
                      · rw [h3ev]
                        intro hmem
                        rcases List.mem_append.mp hmem with ha | hb2
                        · rcases List.mem_append.mp ha with hc | hd
                          · rcases List.mem_append.mp hc with he | hf
                            · exact absurd (hevs0 _ he) (by simp)
                            · exact no_reportCall_of_roundTail _ tailL hqL hf
                          · exact absurd (hevs2 _ hd) (by simp)
                        · exact absurd (hevs3 _ hb2) (by simp)
                      · intro hne
                        cases hsf : env.sink with
                        | none => exact absurd hsf hne
                        | some f =>
                          rw [callSink_ok_some env (fallbackReport q) s2 s3 u3 f hsf hc3]
                          simp
              · rw [if_neg hallE] at hrun
                unfold write_final_report_streaming at hrun
                revert hrun
                cases hcW : streamChunks env env.reportChunks []
                    { s2 with events := s2.events ++ [Event.reportCall] } with
                | mk s3 rW =>
                  intro hrun
                  obtain ⟨tailW, hevW, hpW, htW⟩ := streamChunks_events env env.reportChunks []
                    { s2 with events := s2.events ++ [Event.reportCall] } s3 rW hcW
                  have h3ev : s3.events =
                      (((evs0 ++ tailL) ++ evs2) ++ [Event.reportCall]) ++ tailW := by
                    rw [hevW]
                    show s2.events ++ [Event.reportCall] ++ tailW = _
                    rw [h2ev]
                  have h3t : s3.totalQueries = s2.totalQueries := by
                    rw [htW]
                  have hmemSplit : ∀ e2, e2 ∈ s3.events →
                      e2 ∈ evs0 ∨ e2 ∈ tailL ∨ e2 ∈ evs2 ∨ e2 = Event.reportCall ∨ e2 ∈ tailW := by
                    intro e2 hmem
                    rw [h3ev] at hmem
                    rcases List.mem_append.mp hmem with ha | hb2
                    · rcases List.mem_append.mp ha with hc | hd
                      · rcases List.mem_append.mp hc with he | hf
                        · rcases List.mem_append.mp he with hg | hh2
                          · exact Or.inl hg
                          · exact Or.inr (Or.inl hh2)
                        · exact Or.inr (Or.inr (Or.inl hf))
                      · exact Or.inr (Or.inr (Or.inr (Or.inl (List.mem_singleton.mp hd))))
                    · exact Or.inr (Or.inr (Or.inr (Or.inr hb2)))
                  have hgenc : ∀ t n, Event.genCall t n ∈ s3.events →
                      t ≤ MAX_RESEARCH_TIME ∧
                      (0 ≤ b → n ≤ (min b MAX_QUERIES_PER_ITERATION).toNat) := by
                    intro t n hmem
                    rcases hmemSplit _ hmem with ha | hb2 | hc | hd | he
                    · exact absurd (hevs0 _ ha) (by simp)
                    · exact genCall_bound_of_tail env b tailL hqL t n hb2
                    · exact absurd (hevs2 _ hc) (by simp)
                    · exact Event.noConfusion hd
                    · obtain ⟨m, hm⟩ := hpW _ he
                      exact Event.noConfusion hm
                  have hlearnc : ∀ i ls, Event.learned i ls ∈ s3.events → extractOkAt env i ls := by
                    intro i ls hmem
                    rcases hmemSplit _ hmem with ha | hb2 | hc | hd | he
                    · exact absurd (hevs0 _ ha) (by simp)
                    · exact hxL i ls hb2
                    · exact absurd (hevs2 _ hc) (by simp)
                    · exact Event.noConfusion hd
                    · obtain ⟨m, hm⟩ := hpW _ he
                      exact Event.noConfusion hm
                  have hcountc : countGen s3.events ≤ (min d 5).toNat := by
                    rw [h3ev, countGen_append, countGen_append, countGen_append, countGen_append,
                      countGen_of_progress evs0 (fun e he => ⟨_, hevs0 e he⟩),
                      countGen_of_progress evs2 (fun e he => ⟨_, hevs2 e he⟩),
                      countGen_of_progress tailW hpW]
                    have hrc : countGen [Event.reportCall] = 0 := rfl
                    rw [hrc]
                    simpa using hcnt1
                  have htotc : 0 ≤ b → s3.totalQueries ≤ 24 := by
                    intro hb
                    rw [h3t, h2t]
                    exact h1tot hb
                  have hbatchc : learnedBatches s3.events = learnedBatches tailL := by
                    rw [h3ev, learnedBatches_append, learnedBatches_append,
                      learnedBatches_append, learnedBatches_append,
                      learnedBatches_of_progress evs0 (fun e he => ⟨_, hevs0 e he⟩),
                      learnedBatches_of_progress evs2 (fun e he => ⟨_, hevs2 e he⟩),
                      learnedBatches_of_progress tailW hpW]
                    have hrc : learnedBatches [Event.reportCall] = [] := rfl
                    rw [hrc]
                    simp
                  cases rW with
                  | error eW =>
                    injection hrun with hs hr
                    subst hs
                    refine ⟨hgenc, hcountc, htotc, hlearnc, ?_⟩
                    intro r hok
                    rw [← hr] at hok
                    exact Except.noConfusion hok
                  | ok chunks =>
                    injection hrun with hs hr
                    subst hs
                    refine ⟨hgenc, hcountc, htotc, hlearnc, ?_⟩
                    intro r hok
                    rw [← hr] at hok
                    injection hok with hrr
                    subst hrr
                    refine ⟨?_, fun h0 => absurd ?_ hallE⟩
                    · show all = (learnedBatches s3.events).flatten
                      rw [hbatchc, ← hall]
                    · exact h0
/-- C1 fails as stated: the 20-query ceiling is only checked at round tops, so
a round that begins with the counter below 20 may push it past 20.  Here the
first four rounds issue 4 + 4 + 4 + 4 = 16 queries, round five begins with
16 < 20 and issues 5 more: `total_queries` ends at 21 > 20. -/
theorem C1_counterexample :
    (deep_research envC1 "q" 5 5).1.totalQueries = 21 ∧
    MAX_TOTAL_QUERIES < 21 :=
  ⟨rfl, by decide⟩

/-- C1 (amended): the query counter never exceeds
`MAX_TOTAL_QUERIES - 1 + MAX_QUERIES_PER_ITERATION = 24`: every round starts
only when the counter is at most 19 and adds at most the clamped breadth
(≤ 5) of candidates. -/
theorem C1_total_queries_bound (env : Env) (q : String) (b d : Int)
    (hb : 0 ≤ b) :
    (deep_research env q b d).1.totalQueries ≤
      MAX_TOTAL_QUERIES + MAX_QUERIES_PER_ITERATION.toNat - 1 :=
  (run_master env q b d (deep_research env q b d).1 (deep_research env q b d).2
    rfl).2.2.1 hb

theorem C1_witness :
    (0 : Int) ≤ 3 ∧
    (deep_research trivEnv "w1" 3 2).1.totalQueries ≤
      MAX_TOTAL_QUERIES + MAX_QUERIES_PER_ITERATION.toNat - 1 :=
  ⟨by decide, C1_total_queries_bound trivEnv "w1" 3 2 (by decide)⟩

/-- C2: for every environment — the capability oracles may raise arbitrarily —
as long as the progress sink itself does not raise (in particular when no sink
is supplied), `deep_research` returns a `ResearchResult` and never surfaces an
exception: capability exceptions are caught per call (retrieval/extraction by
the per-query `try`, query generation inside `generate_research_queries`,
report streaming inside the generator). -/
theorem C2_no_exception_past_boundary (env : Env) (q : String) (b d : Int)
    (h : sinkNeverThrows env) :
    ∃ r, (deep_research env q b d).2 = .ok r := by
  obtain ⟨s, all, heq, _⟩ := run_char env q b d h
  exact ⟨_, by rw [heq]⟩

theorem C2_witness :
    ∃ r, (deep_research envAllFail "q" 3 2).2 = .ok r :=
  C2_no_exception_past_boundary envAllFail "q" 3 2
    (fun f hf i => Option.noConfusion hf)

/-- C3: on every successful run the returned learnings are exactly the
concatenation, in trace order, of the batches appended to the round buffer —
round order, then candidate order — with nothing deduplicated, removed or
rewritten; and each batch is the extraction capability's raw response
truncated to the 3 requested learnings, in the order the capability returned
them. -/
theorem C3_learnings_discovery_order (env : Env) (q : String) (b d : Int)
    (s : St) (r : ResearchResult)
    (hrun : deep_research env q b d = (s, .ok r)) :
    r.learnings = (learnedBatches s.events).flatten ∧
    (∀ i ls, Event.learned i ls ∈ s.events → extractOkAt env i ls) := by
  obtain ⟨_, _, _, hx, hok⟩ := run_master env q b d s (.ok r) hrun
  exact ⟨(hok r rfl).1, hx⟩

theorem C3_witness :
    ({ learnings := ["learn"], final_report := "rep" } : ResearchResult).learnings =
      (learnedBatches (deep_research trivEnv "w3" 1 1).1.events).flatten ∧
    (∀ i ls, Event.learned i ls ∈ (deep_research trivEnv "w3" 1 1).1.events →
      extractOkAt trivEnv i ls) :=
  C3_learnings_discovery_order trivEnv "w3" 1 1 _ _ rfl

/-- C4: a successful run that ends with no learnings returns the deterministic
fallback report — the literal prefix, the original question verbatim, and the
literal suffix inviting rephrasing or re-indexing — the report capability is
never invoked (no `reportCall` in the trace), and when a sink was supplied the
fallback text was delivered through it. -/
theorem C4_empty_learnings_fallback (env : Env) (q : String) (b d : Int)
    (s : St) (r : ResearchResult)
    (hrun : deep_research env q b d = (s, .ok r))
    (hempty : r.learnings = []) :
    r.final_report = fallbackPre ++ q ++ fallbackPost ∧
    Event.reportCall ∉ s.events ∧
    (env.sink ≠ none → Event.progress (fallbackReport q) ∈ s.events) := by
  obtain ⟨_, _, _, _, hok⟩ := run_master env q b d s (.ok r) hrun
  obtain ⟨_, hfb⟩ := hok r rfl
  exact hfb hempty

theorem C4_witness :
    ({ learnings := [], final_report := fallbackReport "myquestion" } :
        ResearchResult).final_report =
      fallbackPre ++ "myquestion" ++ fallbackPost ∧
    Event.reportCall ∉ (deep_research env4w "myquestion" 3 2).1.events ∧
    (env4w.sink ≠ none →
      Event.progress (fallbackReport "myquestion") ∈
        (deep_research env4w "myquestion" 3 2).1.events) :=
  C4_empty_learnings_fallback env4w "myquestion" 3 2 _ _ rfl rfl

/-- C5 fails as stated: the wall-clock ceiling is only consulted at round
tops.  Here the first retrieval consumes 301 seconds, and the second candidate
of the same round is still dispatched — its `dispatch` trace record carries
clock value 301, past the 300-second ceiling. -/
theorem C5_counterexample :
    Event.dispatch 301 2 ∈ (deep_research envC5 "q" 2 1).1.events ∧
    MAX_RESEARCH_TIME < 301 :=
  ⟨by decide, by decide⟩

/-- C5 (amended): once elapsed time exceeds the 300-second ceiling no new
round begins — every query-generation call (the start of a round) is recorded
at a clock value within the ceiling; per-query dispatches inside an
already-running round are not re-checked against the clock. -/
theorem C5_no_round_after_deadline (env : Env) (q : String) (b d : Int)
    (t n : Nat)
    (hmem : Event.genCall t n ∈ (deep_research env q b d).1.events) :
    t ≤ MAX_RESEARCH_TIME :=
  ((run_master env q b d (deep_research env q b d).1 (deep_research env q b d).2
    rfl).1 t n hmem).1

theorem C5_witness :
    Event.genCall 0 1 ∈ (deep_research trivEnv "w5" 1 1).1.events ∧
    (0 : Nat) ≤ MAX_RESEARCH_TIME :=
  ⟨by decide, C5_no_round_after_deadline trivEnv "w5" 1 1 0 1 (by decide)⟩

/-- C6 fails as stated: depth is clamped only from above (`min(depth, 5)`),
so a request with depth 0 executes zero rounds — no query-generation call is
ever made — contradicting the claimed lower bound of one round per request. -/
theorem C6_counterexample :
    countGen (deep_research trivEnv "q" 3 0).1.events = 0 ∧ ¬ (1 : Nat) ≤ 0 :=
  ⟨by decide, by decide⟩

/-- C6 (amended): the number of rounds that run (query-generation calls) is
between 0 and `(min depth 5).toNat`, and for non-negative breadth every round
generates at most `(min breadth 5).toNat` candidate queries — an upper bound
on the queries it issues. -/
theorem C6_rounds_and_candidates_bound (env : Env) (q : String) (b d : Int) :
    countGen (deep_research env q b d).1.events ≤ (min d 5).toNat ∧
    (∀ t n, Event.genCall t n ∈ (deep_research env q b d).1.events →
      0 ≤ b → n ≤ (min b MAX_QUERIES_PER_ITERATION).toNat) := by
  obtain ⟨hg, hc, _, _, _⟩ :=
    run_master env q b d (deep_research env q b d).1 (deep_research env q b d).2 rfl
  exact ⟨hc, fun t n hmem hb => (hg t n hmem).2 hb⟩

theorem C6_witness :
    countGen (deep_research trivEnv "w6" 1 1).1.events ≤ ((min 1 5 : Int)).toNat ∧
    (1 : Nat) ≤ (min (1 : Int) MAX_QUERIES_PER_ITERATION).toNat :=
  ⟨(C6_rounds_and_candidates_bound trivEnv "w6" 1 1).1,
   (C6_rounds_and_candidates_bound trivEnv "w6" 1 1).2 0 1 (by decide) (by decide)⟩

/-- C7 fails as stated: the progress callback is not guarded at the run-start
narration (nor at most other narration points), so a sink that raises aborts
`deep_research` and the exception surfaces to the caller instead of the run
completing with a `ResearchResult`. -/
theorem C7_counterexample :
    (deep_research envC7 "q" 3 2).2 = .error "sinkboom" := rfl

/-- C7 (amended): a sink exception is not contained in general — a sink that
raises at its first invocation (the "Starting deep research" narration) makes
`deep_research` raise that exception past its boundary.  (Only sink calls
inside the per-query `try` block are incidentally caught.) -/
theorem C7_sink_exception_aborts (env : Env) (q : String) (b d : Int)
    (f : Nat → Option String) (e : String) (hs : env.sink = some f)
    (h0 : f 0 = some e) :
    (deep_research env q b d).2 = .error e := by
  unfold deep_research callSink
  rw [hs]
  dsimp only
  have h00 : f initSt.sinkCalls = some e := h0
  rw [h00]

theorem C7_witness :
    (deep_research envC7w "w7" 1 1).2 = .error "x" :=
  C7_sink_exception_aborts envC7w "w7" 1 1 (fun _ => some "x") "x" rfl rfl

/-- C8: when the report stream raises after yielding its chunks (and the sink
itself does not throw), the exception is caught inside the report generator:
the run still returns a `ResearchResult`, whose `final_report` is the streamed
chunks followed by the textual error message
`"Error generating final report: ..."`, and that message was also delivered
through the progress sink when one was supplied. -/
theorem C8_report_failure_contained (env : Env) (q : String) (b d : Int)
    (e : String) (h : sinkNeverThrows env) (he : env.reportErr = some e) :
    ∃ s r, deep_research env q b d = (s, .ok r) ∧
      (r.learnings ≠ [] →
        r.final_report = String.join (env.reportChunks ++ [reportErrMsg e]) ∧
        (env.sink ≠ none → Event.progress (reportErrMsg e) ∈ s.events)) := by
  obtain ⟨s, all, heq, hdel⟩ := run_char env q b d h
  refine ⟨s, _, heq, fun hne => ?_⟩
  by_cases hall : all = []
  · rw [if_pos hall] at hne
    exact absurd rfl hne
  · rw [if_neg hall] at hne ⊢
    have herr : errList env = [reportErrMsg e] := by
      unfold errList
      rw [he]
    refine ⟨by rw [← herr], ?_⟩
    rcases hdel with hcontra | hmem
    · exact absurd hcontra hall
    · intro hsink
      have := hmem hsink (reportErrMsg e)
        (List.mem_append.mpr (Or.inr (by rw [herr]; simp)))
      exact this

theorem C8_witness :
    ∃ s r, deep_research env8w "w8" 1 1 = (s, .ok r) ∧
      (r.learnings ≠ [] →
        r.final_report = String.join (env8w.reportChunks ++ [reportErrMsg "boom"]) ∧
        (env8w.sink ≠ none → Event.progress (reportErrMsg "boom") ∈ s.events)) :=
  C8_report_failure_contained env8w "w8" 1 1 "boom"
    (fun f hf i => by injection hf with h2; exact (congrFun h2 i).symm) rfl

/-- C10: when the cancellation probe first turns true at the per-query check
in the middle of round one — after candidate one already contributed the
extraction batch `l :: rest` — the partially completed round keeps its
learnings: the run returns exactly that batch (truncated to the 3 requested
learnings, here `l :: rest.take 2`) in its `ResearchResult`, and only one
query was ever dispatched. -/
theorem C10_partial_round_learnings_kept (l : String) (rest : List String) :
    (deep_research (env10 l rest) "q" 2 2).2 =
      .ok ⟨(l :: rest).take 3, "R"⟩ ∧
    (deep_research (env10 l rest) "q" 2 2).1.totalQueries = 1 :=
  ⟨rfl, rfl⟩
theorem sinkPush_some (env : Env) (m : String) (s : St) (f : Nat → Option String)
    (hf : env.sink = some f) :
    sinkPush env m s =
      { s with sinkCalls := s.sinkCalls + 1, events := s.events ++ [.progress m] } := by
  unfold sinkPush
  rw [hf]

/-- C9 fails as stated (see `C9_counterexample`) because the depth bound is
the `for range(depth)` guard and is effectively checked before everything
else; this theorem proves the amended priority: (0) an exhausted range stops
the loop silently, with no narration; then, in a round that does start,
cancellation, the time ceiling and the query ceiling fire in that order —
`specRoundStop` — each with its own narration (all narrations pairwise
distinct), each returning the learnings gathered so far so the caller
proceeds straight to report synthesis; and when those three pass but query
generation yields no candidates, the distinct no-new-queries narration fires
and the round loop likewise stops with the learnings so far. -/
theorem C9_round_stop_priority (env : Env) (b d : Int) :
    (cancelNarr ≠ timeoutNarr ∧ cancelNarr ≠ limitNarr ∧ cancelNarr ≠ noQueriesNarr ∧
     timeoutNarr ≠ limitNarr ∧ timeoutNarr ≠ noQueriesNarr ∧ limitNarr ≠ noQueriesNarr) ∧
    (∀ all s, roundLoop env b d [] all s = (s, .ok all)) ∧
    (∀ f, env.sink = some f → (∀ i, f i = none) →
      ∀ it rest all s m, specRoundStop env s = some m →
        roundLoop env b d (it :: rest) all s =
          ({ probeBump env s with
              sinkCalls := s.sinkCalls + 1,
              events := s.events ++ [.progress m] }, .ok all)) ∧
    (∀ f, env.sink = some f → (∀ i, f i = none) →
      ∀ it rest all s, specRoundStop env s = none →
        genResultOf env b s.genCalls = [] →
        roundLoop env b d (it :: rest) all s =
          ({ probeBump env s with
              sinkCalls := s.sinkCalls + 2,
              genCalls := s.genCalls + 1,
              now := s.now + (env.genQueries s.genCalls).1,
              events := s.events ++ [.progress (iterStartNarr it d),
                .genCall s.now 0, .progress noQueriesNarr] }, .ok all)) := by
  refine ⟨⟨by decide, by decide, by decide, by decide, by decide, by decide⟩,
    fun all s => rfl, ?_, ?_⟩
  · intro f hf hnf it rest all s m hstop
    have hsnt : sinkNeverThrows env := fun g hg i => by
      rw [hf] at hg
      injection hg with h2
      rw [← h2]
      exact hnf i
    obtain ⟨k, hk⟩ := probeBump_fields env s
    unfold specRoundStop at hstop
    simp only [roundLoop]
    rw [probeCheck_eq env s]
    cases hpf : probeFires env s with
    | true =>
      rw [hpf] at hstop
      rw [if_pos rfl] at hstop
      injection hstop with hm
      subst hm
      dsimp only
      rw [callSink_nothrow env _ _ hsnt]
      dsimp only
      rw [sinkPush_some env _ _ f hf, hk]
    | false =>
      rw [hpf] at hstop
      rw [if_neg Bool.false_ne_true] at hstop
      dsimp only
      rw [hk]
      dsimp only
      by_cases htime : MAX_RESEARCH_TIME < s.now
      · rw [if_pos htime] at hstop ⊢
        injection hstop with hm
        subst hm
        rw [callSink_nothrow env _ _ hsnt]
        dsimp only
        rw [sinkPush_some env _ _ f hf]
      · rw [if_neg htime] at hstop ⊢
        by_cases hlim : MAX_TOTAL_QUERIES ≤ s.totalQueries
        · rw [if_pos hlim] at hstop ⊢
          injection hstop with hm
          subst hm
          rw [callSink_nothrow env _ _ hsnt]
          dsimp only
          rw [sinkPush_some env _ _ f hf]
        · rw [if_neg hlim] at hstop
          exact Option.noConfusion hstop
  · intro f hf hnf it rest all s hstop hg
    have hsnt : sinkNeverThrows env := fun g hg2 i => by
      rw [hf] at hg2
      injection hg2 with h2
      rw [← h2]
      exact hnf i
    obtain ⟨k, hk⟩ := probeBump_fields env s
    unfold specRoundStop at hstop
    cases hpf : probeFires env s with
    | true =>
      rw [hpf] at hstop
      rw [if_pos rfl] at hstop
      exact Option.noConfusion hstop
    | false =>
      rw [hpf] at hstop
      rw [if_neg Bool.false_ne_true] at hstop
      by_cases htime : MAX_RESEARCH_TIME < s.now
      · rw [if_pos htime] at hstop
        exact Option.noConfusion hstop
      · rw [if_neg htime] at hstop
        by_cases hlim : MAX_TOTAL_QUERIES ≤ s.totalQueries
        · rw [if_pos hlim] at hstop
          exact Option.noConfusion hstop
        · simp only [roundLoop]
          rw [probeCheck_eq env s, hpf]
          dsimp only
          rw [hk]
          dsimp only
          rw [if_neg htime, if_neg hlim, callSink_nothrow env _ _ hsnt]
          dsimp only
          rw [sinkPush_some env _ _ f hf]
          dsimp only
          rw [if_pos hg]
          rw [callSink_nothrow env _ _ hsnt]
          dsimp only
          rw [sinkPush_some env _ _ f hf]
          simp only [genBump]
          rw [hg]
          simp [List.append_assoc]

/-- C9 fails as stated: the claim puts cancellation (priority 1) ahead of the
depth bound (priority 4), but the depth bound is the `for range(depth)` guard
and is consulted first, with no narration.  Here depth is 1 and the probe is
true from probe call 2 on: at the boundary after round one the pending
cancellation is never observed — the run ends by range exhaustion, no
"Research cancelled" narration is ever delivered, and the run completes
normally. -/
theorem C9_counterexample :
    Event.progress cancelNarr ∉ (deep_research env9c "q" 1 1).1.events ∧
    (∃ p, env9c.probe = some p ∧ p 2 = true) ∧
    (deep_research env9c "q" 1 1).2 = .ok ⟨["L"], "R"⟩ :=
  ⟨by decide, ⟨_, rfl, rfl⟩, rfl⟩

theorem C9_witness :
    roundLoop envW9 1 1 [0] [] initSt =
      ({ probeBump envW9 initSt with
          sinkCalls := initSt.sinkCalls + 1,
          events := initSt.events ++ [Event.progress cancelNarr] }, .ok []) :=
  (C9_round_stop_priority envW9 1 1).2.2.1 (fun _ => none) rfl (fun i => rfl)
    0 [] [] initSt cancelNarr rfl
end DeepResearch
